import Mathlib

/-!
Verification of the weboob browser/page-dispatch framework.

This file gives a shallow embedding, in Lean 4, of the core framework of the
repository:

* the text-cleaning and decimal-parsing extraction combinators of
  `weboob/tools/browser2/filters.py` (`CleanText`, `CleanDecimal`, `Map`);
* the URL-to-page dispatch loop, the `check_location` URL normalisation
  decorator, and the navigation/re-login engine of
  `weboob/tools/browser/browser.py` (`BaseBrowser._change_location`,
  `BaseBrowser.location`, `BaseBrowser.submit`, `BasePage.on_loaded`).

Strings are modelled as `List Char`.  Python's `re` library (a collaborator of
the framework) is modelled by a small regular-expression AST together with a
backtracking matcher; the compiled pattern `'^%s$' % key` of
`_change_location` corresponds to requiring the match to consume the whole
URL (Python's `$` also accepts a position just before one trailing newline).
Machinery that the claims do not touch is not modelled: the Firefox cookie
jar (`firefox_cookies` is `None` by default), `SAVE_RESPONSES` (False by
default), the `last_update` timestamp and debug logging, and mechanize's
`BrowserStateError` recovery path.
-/

-- Decidable equality for `Except` results, to state and evaluate concrete
-- runs of the fallible operations.
deriving instance DecidableEq for Except

/-! ## Python text primitives (CleanText, `weboob/tools/browser2/filters.py`) -/

/-- The character class `[\s\xa0\t]` of `CleanText.clean`: the pattern is
compiled without `re.UNICODE`, so `\s` is ASCII whitespace
`[ \t\n\r\f\v]`, to which the class adds U+00A0 (and redundantly `\t`). -/
def isWS (c : Char) : Bool :=
  c = ' ' || c = '\t' || c = '\n' || c = '\r' || c = '\x0b' || c = '\x0c' || c = '\u00A0'

/-- The character set stripped by Python 2 `unicode.strip()` (characters whose
`unicode.isspace()` is true).  It contains every `isWS` character. -/
def isStripWS (c : Char) : Bool :=
  isWS c || c = '\x1c' || c = '\x1d' || c = '\x1e' || c = '\x1f' || c = '\x85' ||
  c = '\u1680' || ('\u2000' ≤ c && c ≤ '\u200A') || c = '\u2028' || c = '\u2029' ||
  c = '\u202F' || c = '\u205F' || c = '\u3000'

/-- `re.sub(u'[\s\xa0\t]+', u' ', txt)`: every maximal run of `isWS`
characters is replaced by a single space. -/
def collapseWS : List Char → List Char
  | [] => []
  | [c] => if isWS c then [' '] else [c]
  | c₁ :: c₂ :: r =>
    if isWS c₁ && isWS c₂ then collapseWS (c₂ :: r)
    else (if isWS c₁ then ' ' else c₁) :: collapseWS (c₂ :: r)

/-- Left part of `unicode.strip()`. -/
def lstripWS (l : List Char) : List Char := l.dropWhile isStripWS

/-- Right part of `unicode.strip()`. -/
def rstripWS : List Char → List Char
  | [] => []
  | c :: r =>
    let r' := rstripWS r
    if r'.isEmpty then (if isStripWS c then [] else [c]) else c :: r'

/-- Python `txt.strip()` (no argument): drop `isStripWS` characters from both
ends. -/
def pyStrip (l : List Char) : List Char := rstripWS (lstripWS l)

/-- `CleanText.clean` on a string: collapse whitespace runs to one space, then
strip both ends (`weboob/tools/browser2/filters.py`, lines 145-151). -/
def cleanText_clean (txt : List Char) : List Char := pyStrip (collapseWS txt)

/-- `CleanText.remove(txt, symbols)`: each symbol character is deleted from
the string (a chain of `txt.replace(symbol, '')`). -/
def cleanText_remove (symbols : List Char) (txt : List Char) : List Char :=
  txt.filter (fun c => !symbols.contains c)

/-- The value handed to `CleanText.filter`: either a single string or a list
of strings (the text of a node list). -/
inductive TextInput where
  | str (s : List Char)
  | nodes (l : List (List Char))
deriving DecidableEq, Repr

/-- `' '.join(l)`. -/
def joinSpace : List (List Char) → List Char
  | [] => []
  | [s] => s
  | s :: r => s ++ ' ' :: joinSpace r

/-- `CleanText.filter`: join a node list with spaces after cleaning each
element, clean the result, then delete the configured symbols. -/
def cleanText_filter (symbols : List Char) : TextInput → List Char
  | .str s => cleanText_remove symbols (cleanText_clean s)
  | .nodes l =>
    cleanText_remove symbols (cleanText_clean (joinSpace (l.map cleanText_clean)))

/-! ## Python decimal primitives (CleanDecimal) -/

/-- ASCII digit test (`\d` without `re.UNICODE`). -/
def isDig (c : Char) : Bool := '0' ≤ c && c ≤ '9'

/-- Numeric value of a digit list, most significant first. -/
def digitsToNat (l : List Char) : Nat :=
  l.foldl (fun a c => 10 * a + (c.toNat - '0'.toNat)) 0

/-- An exact decimal value, as Python's `decimal.Decimal` keeps it: an integer
mantissa and a (non-negative) decimal scale; the value is `mant / 10^scale`. -/
structure Dec where
  mant : Int
  scale : Nat
deriving DecidableEq, Repr

/-- The exact rational value of a `Dec`. -/
def decToRat (d : Dec) : ℚ := (d.mant : ℚ) / 10 ^ d.scale

/-- `decimal.Decimal(s)` on a string drawn from the alphabet `[0-9.-]`
(the alphabet left by `re.sub(ur'[^\d\-\.]', '', text)`): an optional leading
`-`, then digits with at most one `.` and at least one digit; anything else
raises `InvalidOperation`.  (`Decimal` first strips whitespace; exponent and
`NaN`/`Infinity` forms contain letters and cannot occur on this alphabet.) -/
def parseDecStr (s₀ : List Char) : Option Dec :=
  let s := pyStrip s₀
  let neg : Bool := s.head? == some '-'
  let t := if neg then s.tail else s
  let intPart := t.takeWhile (fun c => c ≠ '.')
  let rest := t.dropWhile (fun c => c ≠ '.')
  let sign : Int := if neg then -1 else 1
  match rest with
  | [] =>
    if t.all isDig && !t.isEmpty then some ⟨sign * digitsToNat t, 0⟩ else none
  | _ :: frac =>
    if intPart.all isDig && frac.all isDig && !(intPart ++ frac).isEmpty then
      some ⟨sign * digitsToNat (intPart ++ frac), frac.length⟩
    else none

/-- A minimal universe of Python values, used for `Map` dictionaries and for
the `default=` arguments of the combinators. -/
inductive PyVal where
  | str (s : List Char)
  | int (n : Int)
  | dec (d : Dec)
  | pynone
deriving DecidableEq, Repr

/-- Python exception kinds raised by the combinators. -/
inductive PyExc where
  | keyError
  | invalidOperation
  | typeError
deriving DecidableEq, Repr

/-- `decimal.Decimal(x)` on a Python value (used on `self.default`): parse a
string, convert an int exactly, pass a `Decimal` through, and raise
`TypeError` on `None`. -/
def pyDecimalOf : PyVal → Except PyExc Dec
  | .str s =>
    match parseDecStr s with
    | some d => .ok d
    | none => .error .invalidOperation
  | .int n => .ok ⟨n, 0⟩
  | .dec d => .ok d
  | .pynone => .error .typeError

/-- `text.replace(old, new)` for single characters. -/
def pyReplaceChar (old new : Char) (s : List Char) : List Char :=
  s.map (fun c => if c = old then new else c)

/-- `text.replace(c, '')`: delete every occurrence of `c`. -/
def pyRemoveChar (x : Char) (s : List Char) : List Char :=
  s.filter (fun c => c ≠ x)

/-- `re.sub(ur'[^\d\-\.]', '', text)`: keep only digits, `-` and `.`. -/
def keepDecChars (s : List Char) : List Char :=
  s.filter (fun c => isDig c || c = '-' || c = '.')

/-- `CleanDecimal.filter` (`weboob/tools/browser2/filters.py`, lines 169-179):
clean the text, optionally convert continental formatting
(`text.replace('.','').replace(',','.')`), strip the remaining characters to
`[0-9.-]` and convert with `Decimal`; on `InvalidOperation`, return
`Decimal(self.default)` when a default was configured, else re-raise. -/
def cleanDecimal_filter (replace_dots : Bool) (default : Option PyVal)
    (txt : TextInput) : Except PyExc Dec :=
  let text := cleanText_filter [] txt
  let text := if replace_dots then pyReplaceChar ',' '.' (pyRemoveChar '.' text) else text
  match parseDecStr (keepDecChars text) with
  | some d => .ok d
  | none =>
    match default with
    | some dv => pyDecimalOf dv
    | none => .error .invalidOperation

/-! ## Map (`weboob/tools/browser2/filters.py`, lines 257-270) -/

/-- Dictionary lookup, `self.map_dict[txt]`. -/
def lookupDict (d : List (PyVal × PyVal)) (k : PyVal) : Option PyVal :=
  (d.find? (fun kv => kv.1 = k)).map (·.2)

/-- `Map.filter`: look the selected value up in the construction-time
dictionary; on a missing key return the configured default unchanged, or
raise `KeyError` when no default was configured. -/
def map_filter (map_dict : List (PyVal × PyVal)) (default : Option PyVal)
    (txt : PyVal) : Except PyExc PyVal :=
  match lookupDict map_dict txt with
  | some v => .ok v
  | none =>
    match default with
    | some d => .ok d
    | none => .error .keyError

/-! ## Regular expressions (model of Python `re`, collaborator library)

`_change_location` compiles `'^%s$' % key` and calls `.match(url)`; with the
anchors this succeeds exactly when the key's pattern matches the whole URL
(Python's `$` also matches just before one trailing newline).  The AST below
covers the constructs used by `PAGES` patterns; `+`, `?` and bounded repeats
desugar to `cat`/`alt`/`star`. -/

inductive Regex where
  /-- matches the empty string -/
  | eps
  /-- a literal character -/
  | lit (c : Char)
  /-- `.` — any character except a newline (no `re.DOTALL`) -/
  | anyc
  /-- a character class `[...]` (`neg` for `[^...]`) -/
  | cls (neg : Bool) (cs : List Char)
  /-- concatenation -/
  | cat (a b : Regex)
  /-- alternation `a|b`, left branch preferred -/
  | alt (a b : Regex)
  /-- `a*`, greedy -/
  | star (a : Regex)
  /-- a numbered capturing group `(...)` -/
  | group (idx : Nat) (a : Regex)
deriving DecidableEq, Repr

/-- Captured groups of a match: group number paired with captured text. -/
abbrev Caps := List (Nat × List Char)

/-- Membership in a character class. -/
def clsMem (neg : Bool) (cs : List Char) (c : Char) : Bool :=
  (cs.contains c) != neg

/-- Backtracking matcher.  `reRun fuel r s` lists, in Python's backtracking
priority order, the outcomes `(caps, rest)` of matching `r` against a prefix
of `s`: `caps` are the captured groups and `rest` the unconsumed suffix.
Greedy `star` tries another (non-empty) iteration before stopping.  `fuel`
bounds the recursion depth; every theorem about a concrete pattern is
evaluated with ample fuel. -/
def reRun : Nat → Regex → List Char → List (Caps × List Char)
  | 0, _, _ => []
  | fuel+1, r, s =>
    match r with
    | .eps => [([], s)]
    | .lit c =>
      match s with
      | [] => []
      | c' :: rest => if c' = c then [([], rest)] else []
    | .anyc =>
      match s with
      | [] => []
      | c' :: rest => if c' ≠ '\n' then [([], rest)] else []
    | .cls neg cs =>
      match s with
      | [] => []
      | c' :: rest => if clsMem neg cs c' then [([], rest)] else []
    | .cat a b =>
      (reRun fuel a s).flatMap fun p =>
        (reRun fuel b p.2).map fun q => (p.1 ++ q.1, q.2)
    | .alt a b => reRun fuel a s ++ reRun fuel b s
    | .star a =>
      (((reRun fuel a s).filter fun p => p.2.length < s.length).flatMap fun p =>
        (reRun fuel (.star a) p.2).map fun q => (p.1 ++ q.1, q.2)) ++ [([], s)]
    | .group i a =>
      (reRun fuel a s).map fun p =>
        (p.1 ++ [(i, s.take (s.length - p.2.length))], p.2)

/-- Structural size of a pattern, used to pick an ample fuel. -/
def rsize : Regex → Nat
  | .eps | .lit _ | .anyc | .cls _ _ => 1
  | .cat a b | .alt a b => rsize a + rsize b + 1
  | .star a | .group _ a => rsize a + 1

/-- Fuel sufficient for matching `r` against `s` (each level of the matcher
either descends into a strictly smaller pattern or consumes a character). -/
def reFuel (r : Regex) (s : List Char) : Nat :=
  (rsize r + 1) * (s.length + 1) + 1

/-- `re.match('^%s$' % key, url)`: the first backtracking outcome that
consumes the whole URL (or all but one trailing newline, which Python's `$`
also accepts), with its captured groups. -/
def reFullMatch (r : Regex) (s : List Char) : Option Caps :=
  ((reRun (reFuel r s) r s).find? fun p => p.2.isEmpty || p.2 == ['\n']).map (·.1)

/-- `re.search(key, url)`: the pattern matches somewhere inside the string,
with any suffix left over (used only to contrast substring matching with the
anchored matching `_change_location` performs). -/
def reSearch (r : Regex) (s : List Char) : Bool :=
  (List.range (s.length + 1)).any fun i => !(reRun (reFuel r s) r (s.drop i)).isEmpty

/-- Declarative matching relation: `RMatch r s` says the pattern `r` matches
exactly the string `s` (ordinary regular-expression language semantics;
capture groups do not affect the language). -/
inductive RMatch : Regex → List Char → Prop where
  | eps : RMatch .eps []
  | lit (c : Char) : RMatch (.lit c) [c]
  | anyc (c : Char) : c ≠ '\n' → RMatch .anyc [c]
  | cls (neg : Bool) (cs : List Char) (c : Char) :
      clsMem neg cs c = true → RMatch (.cls neg cs) [c]
  | cat {a b s₁ s₂} : RMatch a s₁ → RMatch b s₂ → RMatch (.cat a b) (s₁ ++ s₂)
  | altL {a s} (b : Regex) : RMatch a s → RMatch (.alt a b) s
  | altR {b s} (a : Regex) : RMatch b s → RMatch (.alt a b) s
  | starNil (a : Regex) : RMatch (.star a) []
  | starCons {a s₁ s₂} : RMatch a s₁ → RMatch (.star a) s₂ →
      RMatch (.star a) (s₁ ++ s₂)
  | group (i : Nat) {a s} : RMatch a s → RMatch (.group i a) s

/-! ## URL dispatch (`BaseBrowser._change_location`, lines 531-542)

The `PAGES` class attribute is a **plain Python 2 dict** from pattern strings
to page classes; `_change_location` walks `self.PAGES.items()` and picks the
first entry whose anchored pattern matches the response URL.  A Python 2
dict is unordered: `.items()` enumerates the entries in hash order, which is
neither the declaration order of the dict literal nor under the module
author's control.  The embedding therefore takes that iteration sequence as
an explicit list argument and proves its theorems for **every** possible
sequence; nothing below assumes the sequence agrees with declaration order
(for overlapping patterns the winner genuinely depends on the sequence — see
the C1 counterexample). -/

/-- Page classes are identified by a tag. -/
abbrev PageCls := Nat

/-- The pattern loop of `_change_location`: try each binding of the
`PAGES.items()` sequence, in the order the dict yields them, against the
full response URL; the first anchored match wins and its captured groups are
returned with the page class. -/
def dispatch (pages : List (Regex × PageCls)) (url : List Char) :
    Option (PageCls × Caps) :=
  match pages with
  | [] => none
  | (key, value) :: rest =>
    match reFullMatch key url with
    | some caps => some (value, caps)
    | none => dispatch rest url

/-- First-match-wins reading of the same loop, via `List.find?`. -/
def dispatchSpec (pages : List (Regex × PageCls)) (url : List Char) :
    Option (PageCls × Caps) :=
  (pages.find? fun kv => (reFullMatch kv.1 url).isSome).map
    fun kv => (kv.2, (reFullMatch kv.1 url).getD [])

/-! ## URL normalisation (`check_location` decorator, browser.py lines 120-130) -/

/-- Split a string at newlines (`'\n'`-separated segments; `.` in a Python
pattern does not match `'\n'`, so `re.sub` acts per segment). -/
def splitLines : List Char → List (List Char)
  | [] => [[]]
  | c :: r =>
    if c = '\n' then [] :: splitLines r
    else
      match splitLines r with
      | [] => [[c]]
      | l :: ls => (c :: l) :: ls

/-- Rejoin newline-separated segments. -/
def joinLines : List (List Char) → List Char
  | [] => []
  | [l] => l
  | l :: ls => l ++ '\n' :: joinLines ls

/-- Replace one segment by the leftmost match of `(.*)#.*` substituted with
`\1`: since both `.*` are greedy and cannot cross a newline, a segment that
contains `#` is cut at its last `#` (everything from the last `#` on is
dropped); a segment without `#` is left alone. -/
def cutAtLastHash (l : List Char) : List Char :=
  if l.contains '#' then ((l.reverse.dropWhile fun c => c ≠ '#').drop 1).reverse
  else l

/-- `re.sub('(.*)#.*', r'\1', url)`: applied segment-wise between newlines. -/
def pySubFragment (s : List Char) : List Char :=
  joinLines ((splitLines s).map cutAtLastHash)

/-- `check_location` (browser.py lines 120-130) on a string target: a target
starting with `/` is prefixed with `PROTOCOL://DOMAIN` when there is no
current request or its host differs from `DOMAIN`; then
`re.sub('(.*)#.*', r'\1', url)` is applied. -/
def checkLocation (protocol domain : List Char) (reqHost : Option (List Char))
    (url : List Char) : List Char :=
  let url :=
    if url.head? = some '/' ∧ (reqHost = none ∨ reqHost ≠ some domain) then
      protocol ++ ':' :: '/' :: '/' :: domain ++ url
    else url
  pySubFragment url

/-- Host part of an absolute URL (text between `://` and the next `/`),
modelling `request.host` of the mechanize request object. -/
def hostOf (url : List Char) : List Char :=
  let rec go : List Char → List Char
    | ':' :: '/' :: '/' :: r => r.takeWhile fun c => c ≠ '/'
    | _ :: r => go r
    | [] => []
  go url

/-- A URL that `check_location` passes through unchanged whatever the current
request is: it is not domain-relative and carries no `#`. -/
def NormalUrl (url : List Char) : Prop :=
  url.head? ≠ some '/' ∧ '#' ∉ url

/-! ## Navigation / session engine (`BaseBrowser`, browser.py lines 353-569) -/

/-- A page object (`BasePage.__init__`, lines 105-112): the page class, the
URL the response came from, the parsed document (modelled by the raw body;
the parser is a collaborator), the regex capture groups, and a model-level
identity `pid` distinguishing the object from other constructed pages. -/
structure Page where
  pid : Nat
  cls : PageCls
  url : List Char
  doc : List Char
  groups : Caps
deriving DecidableEq, Repr

/-- Mutable browser state: the current page (`self.page`) and the current
request's host (`self.request`, set by each successful mechanize open);
`nextPid` is the model's fresh-identity counter for constructed pages. -/
structure BState where
  page : Option Page
  reqHost : Option (List Char)
  nextPid : Nat
deriving DecidableEq, Repr

/-- Observable events of one navigation, in order of occurrence. -/
inductive Ev where
  /-- the transport performed a request for this (normalised) URL -/
  | fetched (url : List Char)
  /-- a `Page` object was constructed for this response URL -/
  | constructed (pid : Nat) (url : List Char)
  /-- `self.login()` was invoked -/
  | loginCalled
  /-- `page.on_loaded()` was invoked on the page with this identity -/
  | onLoaded (pid : Nat)
  /-- the warning `There isn't any page corresponding to URL ...` was logged -/
  | warnedNoPage (url : List Char)
  /-- `save_response` persisted the response body for this URL -/
  | savedResponse (url : List Char)
deriving DecidableEq, Repr

/-- Transport-level failures of `mechanize.Browser.open` / `.submit`
(`urllib2.HTTPError`, `urllib2.URLError`, `httplib.BadStatusLine`). -/
inductive TransportError where
  | httpError (code : Nat)
  | urlError
  | badStatusLine
deriving DecidableEq, Repr

/-- Exceptions of the browser layer that the engine raises or handles. -/
inductive BErr where
  /-- `BrowserRetry`, the internal retry signal -/
  | browserRetry
  /-- `BrowserHTTPError` -/
  | browserHTTPError
  /-- `BrowserHTTPNotFound` -/
  | browserHTTPNotFound
  /-- `BrowserUnavailable` -/
  | browserUnavailable
  /-- model artifact: the recursion budget ran out -/
  | outOfFuel
deriving DecidableEq, Repr

/-- `StandardBrowser.get_exception` (lines 237-241): a 404 `HTTPError`
becomes `BrowserHTTPNotFound`, every other transport error
`BrowserHTTPError`. -/
def getExc : TransportError → BErr
  | .httpError 404 => .browserHTTPNotFound
  | _ => .browserHTTPError

/-- A transport response: the final URL after redirects (`result.geturl()`)
and the body. -/
structure Response where
  url : List Char
  doc : List Char
deriving DecidableEq, Repr

/-- Outcome of one transport request (collaborator). -/
inductive FetchResult where
  | ok (r : Response)
  | err (e : TransportError)
deriving DecidableEq, Repr

/-- Browser configuration: the class attributes of a `BaseBrowser` subclass
(`PROTOCOL`, `DOMAIN`, `PAGES`), whether a password was supplied, the
module's `is_logged` predicate (which examines the browser's current page),
the module's `login` procedure — modelled as the list of navigations it
performs, each a `(target, no_login)` pair — and the transport. -/
structure Cfg where
  protocol : List Char
  domain : List Char
  pages : List (Regex × PageCls)
  hasPassword : Bool
  isLogged : Option Page → Bool
  loginProg : List (List Char × Bool)
  fetch : List Char → FetchResult

/-- Modelled from the spec: the `retry` decorator of
`weboob.tools.decorators` (that file is not under `src/`) re-runs the
decorated call on `BrowserHTTPError` up to a fixed bound of three attempts
in total, then lets the error propagate. -/
def retryTries : Nat := 3

/-- Which browser errors the `retry(BrowserHTTPError, tries=3)` decorator
retries (`BrowserHTTPNotFound` is not a subclass of `BrowserHTTPError`). -/
def retryableErr : BErr → Bool
  | .browserHTTPError => true
  | _ => false

/-- The engine's mutually recursive methods, as one fuel-indexed interpreter.
Each constructor is one method (or decorator stage) of `BaseBrowser`. -/
inductive BTask where
  /-- `location(url, no_login=nl)` with its decorators applied -/
  | loc (url : List Char) (noLogin : Bool)
  /-- the `retry` decorator with `n` attempts left around the body -/
  | locAttempts (n : Nat) (url : List Char) (noLogin : Bool)
  /-- the undecorated body of `location` (lines 484-500) -/
  | locBody (url : List Char) (noLogin : Bool)
  /-- `_change_location(result, no_login=nl)` (lines 525-569) -/
  | chg (resp : Response) (noLogin : Bool)
  /-- the remaining navigations of the module's `login()` procedure -/
  | prog (cmds : List (List Char × Bool))
deriving DecidableEq

/-- One run of the engine.  Returns the final state, the trace of events (in
order), and either normal completion or the propagating exception.  `fuel`
bounds the call depth; concrete scenarios are evaluated with ample fuel. -/
def browserRun (cfg : Cfg) : Nat → BState → BTask →
    BState × List Ev × Except BErr Unit
  | 0, st, _ => (st, [], .error .outOfFuel)
  | fuel+1, st, t =>
    match t with
    | .loc url noLogin =>
      -- @check_location, then @retry(BrowserHTTPError, tries=3)
      browserRun cfg fuel st
        (.locAttempts retryTries
          (checkLocation cfg.protocol cfg.domain st.reqHost url) noLogin)
    | .locAttempts n url noLogin =>
      let r := browserRun cfg fuel st (.locBody url noLogin)
      match n, r with
      | n+2, (st₁, tr₁, .error .browserHTTPError) =>
        let r₂ := browserRun cfg fuel st₁ (.locAttempts (n+1) url noLogin)
        (r₂.1, tr₁ ++ r₂.2.1, r₂.2.2)
      | _, r => r
    | .locBody url noLogin =>
      -- location body: open the URL, hand the response to _change_location,
      -- handle BrowserRetry / transport errors (lines 489-497)
      match cfg.fetch url with
      | .err e => ({ st with page := none }, [.fetched url], .error (getExc e))
      | .ok resp =>
        let st₀ := { st with reqHost := some (hostOf resp.url) }
        let r := browserRun cfg fuel st₀ (.chg resp noLogin)
        match r with
        | (st₁, tr₁, .error .browserRetry) =>
          -- `except BrowserRetry: if not self.page or not args or
          --  self.page.url != args[0]: self.location(*keep_args, no_login=True)`
          let retry :=
            match st₁.page with
            | none => true
            | some p => p.url ≠ url
          if retry then
            let r₂ := browserRun cfg fuel st₁ (.loc url true)
            (r₂.1, .fetched url :: tr₁ ++ r₂.2.1, r₂.2.2)
          else
            (st₁, .fetched url :: tr₁, .ok ())
        | (st₁, tr₁, res) => (st₁, .fetched url :: tr₁, res)
    | .chg resp noLogin =>
      -- _change_location: dispatch the final URL, construct the page,
      -- re-login when the page looks logged out, else run on_loaded
      match dispatch cfg.pages resp.url with
      | none =>
        ({ st with page := none },
         [.warnedNoPage resp.url, .savedResponse resp.url], .ok ())
      | some (cls, caps) =>
        let pg : Page := ⟨st.nextPid, cls, resp.url, resp.doc, caps⟩
        let st₁ := { st with page := some pg, nextPid := st.nextPid + 1 }
        if !noLogin && cfg.hasPassword && !cfg.isLogged st₁.page then
          let r := browserRun cfg fuel st₁ (.prog cfg.loginProg)
          match r with
          | (st₂, tr₂, .ok ()) =>
            (st₂, .constructed pg.pid resp.url :: .loginCalled :: tr₂,
             .error .browserRetry)
          | (st₂, tr₂, .error e) =>
            (st₂, .constructed pg.pid resp.url :: .loginCalled :: tr₂, .error e)
        else
          (st₁, [.constructed pg.pid resp.url, .onLoaded pg.pid], .ok ())
    | .prog cmds =>
      -- the navigations performed by the module's login() procedure
      match cmds with
      | [] => (st, [], .ok ())
      | (u, nl) :: rest =>
        let r := browserRun cfg fuel st (.loc u nl)
        match r with
        | (st₁, tr₁, .ok ()) =>
          let r₂ := browserRun cfg fuel st₁ (.prog rest)
          (r₂.1, tr₁ ++ r₂.2.1, r₂.2.2)
        | (st₁, tr₁, .error e) => (st₁, tr₁, .error e)

/-- `BaseBrowser.location(url, no_login=noLogin)`. -/
def location (cfg : Cfg) (fuel : Nat) (st : BState) (url : List Char)
    (noLogin : Bool) : BState × List Ev × Except BErr Unit :=
  browserRun cfg fuel st (.loc url noLogin)

/-- `BaseBrowser._change_location(result, no_login=noLogin)`. -/
def changeLocation (cfg : Cfg) (fuel : Nat) (st : BState) (resp : Response)
    (noLogin : Bool) : BState × List Ev × Except BErr Unit :=
  browserRun cfg fuel st (.chg resp noLogin)

/-- `BaseBrowser.submit(nologin=nologin)` (lines 438-449): the form
submission's transport outcome is handed to `_change_location`; a transport
error clears the current page and is converted by `get_exception`; a
`BrowserRetry` escaping `_change_location` becomes `BrowserUnavailable`. -/
def submit (cfg : Cfg) (fuel : Nat) (st : BState) (formResult : FetchResult)
    (nologin : Bool) : BState × List Ev × Except BErr Unit :=
  match formResult with
  | .err e => ({ st with page := none }, [], .error (getExc e))
  | .ok resp =>
    match browserRun cfg fuel st (.chg resp nologin) with
    | (st₁, tr₁, .error .browserRetry) => (st₁, tr₁, .error .browserUnavailable)
    | r => r

/-- `BasePage.on_loaded` (lines 114-118): the default implementation does
nothing — it is the identity on the browser state. -/
def basePage_on_loaded (st : BState) : BState := st

/-- Number of occurrences of an event in a trace. -/
def countEv (tr : List Ev) (e : Ev) : Nat :=
  (tr.filter fun x => x = e).length

/-! ## Auxiliary definitions used by the theorems -/

/-- No two adjacent whitespace characters (the shape `collapseWS` outputs). -/
def noAdjWS : List Char → Bool
  | c₁ :: c₂ :: r => !(isWS c₁ && isWS c₂) && noAdjWS (c₂ :: r)
  | _ => true

/-- Every whitespace character is a plain space. -/
def wsOnlySpace (l : List Char) : Bool :=
  l.all fun c => !isWS c || c = ' '

/-- The regex matching one literal string. -/
def rlit : List Char → Regex
  | [] => .eps
  | c :: r => .cat (.lit c) (rlit r)

/-- Initial browser state: no current page, no current request. -/
def stInit : BState := ⟨none, none, 0⟩

/-- A transport that answers every request with an empty document at the
requested URL (no redirects). -/
def fetchEcho : List Char → FetchResult := fun u => .ok ⟨u, []⟩

/-- A browser whose `PAGES` table is empty (no binding matches any URL). -/
def cfgNoPages : Cfg :=
  ⟨"http".toList, "x".toList, [], false, (fun _ => false), [], fetchEcho⟩

/-- A browser whose transport always fails with a `URLError`. -/
def cfgFetchFail : Cfg :=
  ⟨"http".toList, "x".toList, [(.star .anyc, 0)], false, (fun _ => false), [],
   fun _ => .err .urlError⟩

/-- A catch-all page table and a password, with an `is_logged` that is always
false and a `login()` that performs no navigation at all (it succeeds
trivially). -/
def cfgNoOpLogin : Cfg :=
  ⟨"http".toList, "x".toList, [(.star .anyc, 0)], true, (fun _ => false), [],
   fetchEcho⟩

/-- A catch-all page table and a password, with an `is_logged` that is always
false and a `login()` that navigates (without `no_login`) to an intermediate
URL — which then also looks logged out. -/
def cfgLoopLogin : Cfg :=
  ⟨"http".toList, "x".toList, [(.star .anyc, 0)], true, (fun _ => false),
   [("http://x/in".toList, false)], fetchEcho⟩

/-- A two-binding browser for the re-login scenario: the login URL is bound
to page class 1, everything else to class 0; a page is considered logged in
exactly when it is the class-1 (login-result) page; `login()` navigates to
the login URL. -/
def cfgRelogin : Cfg :=
  ⟨"http".toList, "x".toList,
   [(rlit "http://x/login".toList, 1), (.star .anyc, 0)], true,
   (fun op => match op with
     | some pg => pg.cls = 1
     | none => false),
   [("http://x/login".toList, false)], fetchEcho⟩

/-- A passwordless browser with a catch-all page table. -/
def cfgSimple : Cfg :=
  ⟨"http".toList, "x".toList, [(.star .anyc, 0)], false, (fun _ => false), [],
   fetchEcho⟩

/-- The character of a decimal digit. -/
def digitChar (d : Nat) : Char := Char.ofNat ('0'.toNat + d)

/-- Render a list of abstract digits as characters, most significant first. -/
def renderDigits (l : List (Fin 10)) : List Char :=
  l.map fun d => digitChar d.val

/-- Positional value of a list of abstract digits. -/
def natOfDigits (l : List (Fin 10)) : Nat :=
  l.foldl (fun a d => 10 * a + d.val) 0

/-! # Theorems -/

/-! ## Whitespace lemmas (towards C7) -/

theorem noAdjWS_tail {c : Char} {l : List Char} (h : noAdjWS (c :: l) = true) :
    noAdjWS l = true := by
  cases l with
  | nil => rfl
  | cons d t => simp [noAdjWS] at h; exact h.2

theorem noAdjWS_cons_nonWS {c : Char} {l : List Char} (hc : isWS c = false)
    (hl : noAdjWS l = true) : noAdjWS (c :: l) = true := by
  cases l with
  | nil => rfl
  | cons d t => simp [noAdjWS, hc, hl]

theorem collapseWS_head_nonWS {c : Char} (r : List Char) (hc : isWS c = false) :
    ∃ t, collapseWS (c :: r) = c :: t := by
  cases r with
  | nil => exact ⟨[], by simp [collapseWS, hc]⟩
  | cons d t => exact ⟨collapseWS (d :: t), by simp [collapseWS, hc]⟩

theorem wsOnlySpace_collapseWS (l : List Char) : wsOnlySpace (collapseWS l) = true := by
  induction l with
  | nil => rfl
  | cons c r ih =>
    cases r with
    | nil =>
      by_cases hc : isWS c = true
      · simp [collapseWS, hc, wsOnlySpace]
      · simp at hc
        simp [collapseWS, hc, wsOnlySpace]
    | cons d t =>
      by_cases hc : isWS c = true
      · by_cases hd : isWS d = true
        · simpa [collapseWS, hc, hd] using ih
        · simp at hd
          simp only [collapseWS, hc, hd, Bool.and_false, if_false, if_true]
          simpa [wsOnlySpace] using ih
      · simp at hc
        simp only [collapseWS, hc, Bool.false_and, if_false]
        simpa [wsOnlySpace, hc] using ih

theorem noAdjWS_collapseWS (l : List Char) : noAdjWS (collapseWS l) = true := by
  induction l with
  | nil => rfl
  | cons c r ih =>
    cases r with
    | nil =>
      by_cases hc : isWS c = true <;> simp_all [collapseWS, noAdjWS]
    | cons d t =>
      by_cases hc : isWS c = true
      · by_cases hd : isWS d = true
        · simpa [collapseWS, hc, hd] using ih
        · simp at hd
          simp only [collapseWS, hc, hd, Bool.and_false, if_false, if_true]
          obtain ⟨u, hu⟩ := collapseWS_head_nonWS t hd
          rw [hu]
          rw [hu] at ih
          simp [noAdjWS, hd, ih]
      · simp at hc
        simp only [collapseWS, hc, Bool.false_and, if_false]
        exact noAdjWS_cons_nonWS hc ih

theorem collapseWS_id {l : List Char} (h₁ : noAdjWS l = true)
    (h₂ : wsOnlySpace l = true) : collapseWS l = l := by
  induction l with
  | nil => rfl
  | cons c r ih =>
    cases r with
    | nil =>
      by_cases hc : isWS c = true
      · have : c = ' ' := by simpa [wsOnlySpace, hc] using h₂
        simp [collapseWS, hc, this]
      · simp at hc
        simp [collapseWS, hc]
    | cons d t =>
      have hnd : !(isWS c && isWS d) = true := by
        simp [noAdjWS] at h₁
        simp [h₁.1]
      have hrec : collapseWS (d :: t) = d :: t := by
        refine ih (noAdjWS_tail h₁) ?_
        simp only [wsOnlySpace, List.all_cons, Bool.and_eq_true] at h₂ ⊢
        exact h₂.2
      by_cases hc : isWS c = true
      · have hd : isWS d = false := by
          cases hval : isWS d with
          | false => rfl
          | true => rw [hc, hval] at hnd; simp at hnd
        have hcsp : c = ' ' := by simp [wsOnlySpace, hc] at h₂; exact h₂.1
        simp [collapseWS, hc, hd, hrec, hcsp]
      · simp at hc
        simp [collapseWS, hc, hrec]

theorem noAdjWS_dropWhile (p : Char → Bool) (l : List Char)
    (h : noAdjWS l = true) : noAdjWS (l.dropWhile p) = true := by
  induction l with
  | nil => rfl
  | cons c r ih =>
    by_cases hp : p c = true
    · simpa [List.dropWhile, hp] using ih (noAdjWS_tail h)
    · simp at hp
      simpa [List.dropWhile, hp] using h

theorem wsOnlySpace_of_mem {l₁ l₂ : List Char}
    (hmem : ∀ a, a ∈ l₁ → a ∈ l₂) (h : wsOnlySpace l₂ = true) :
    wsOnlySpace l₁ = true := by
  simp only [wsOnlySpace, List.all_eq_true] at h ⊢
  exact fun a ha => h a (hmem a ha)

theorem mem_rstripWS {a : Char} {l : List Char} (h : a ∈ rstripWS l) : a ∈ l := by
  induction l with
  | nil => simp [rstripWS] at h
  | cons c r ih =>
    simp only [rstripWS] at h
    by_cases he : (rstripWS r).isEmpty
    · simp only [he, if_true] at h
      by_cases hs : isStripWS c = true
      · simp [hs] at h
      · simp at hs
        simp [hs] at h
        simp [h]
    · simp only [he, if_false] at h
      rcases List.mem_cons.mp h with h | h
      · simp [h]
      · exact List.mem_cons_of_mem _ (ih h)

theorem rstripWS_head {c : Char} {r : List Char} (h : rstripWS (c :: r) ≠ []) :
    ∃ t, rstripWS (c :: r) = c :: t := by
  simp only [rstripWS] at h ⊢
  by_cases he : (rstripWS r).isEmpty
  · by_cases hs : isStripWS c = true
    · simp [he, hs] at h
    · simp at hs
      exact ⟨[], by simp [he, hs]⟩
  · exact ⟨rstripWS r, by simp [he]⟩

theorem noAdjWS_rstripWS {l : List Char} (h : noAdjWS l = true) :
    noAdjWS (rstripWS l) = true := by
  induction l with
  | nil => rfl
  | cons c r ih =>
    simp only [rstripWS]
    by_cases he : (rstripWS r).isEmpty
    · by_cases hs : isStripWS c = true
      · simp only [he, hs]
        rfl
      · simp at hs
        simp only [he, hs]
        rfl
    · simp only [he, if_false]
      have hr : rstripWS r ≠ [] := by simpa [List.isEmpty_iff] using he
      cases r with
      | nil => simp [rstripWS] at hr
      | cons d t =>
        obtain ⟨u, hu⟩ := rstripWS_head hr
        rw [hu]
        have h1 : !(isWS c && isWS d) = true := by
          simp [noAdjWS] at h
          simp [h.1]
        have h2 := ih (noAdjWS_tail h)
        rw [hu] at h2
        cases hcd : (isWS c && isWS d) with
        | true => rw [hcd] at h1; simp at h1
        | false => simp [noAdjWS, hcd, h2]

theorem rstripWS_idem (l : List Char) : rstripWS (rstripWS l) = rstripWS l := by
  induction l with
  | nil => rfl
  | cons c r ih =>
    by_cases he : (rstripWS r).isEmpty
    · simp only [rstripWS, he, if_true]
      by_cases hs : isStripWS c = true
      · simp [hs, rstripWS]
      · simp at hs
        simp [hs, rstripWS, he]
    · simp only [rstripWS, he, if_false]
      simp only [rstripWS, ih, he, if_false]

theorem head_lstripWS {l : List Char} {c : Char}
    (h : (lstripWS l).head? = some c) : isStripWS c = false := by
  induction l with
  | nil => simp [lstripWS] at h
  | cons d r ih =>
    by_cases hs : isStripWS d = true
    · exact ih (by simpa [lstripWS, List.dropWhile, hs] using h)
    · simp at hs
      simp [lstripWS, List.dropWhile, hs] at h
      rwa [← h]

theorem lstripWS_of_head {l : List Char}
    (h : ∀ c, l.head? = some c → isStripWS c = false) : lstripWS l = l := by
  cases l with
  | nil => rfl
  | cons c r => simp [lstripWS, List.dropWhile, h c rfl]

theorem rstripWS_keeps_head {l : List Char} (h : rstripWS l ≠ []) :
    (rstripWS l).head? = l.head? := by
  cases l with
  | nil => simp [rstripWS] at h
  | cons c r =>
    obtain ⟨t, ht⟩ := rstripWS_head h
    simp [ht]

theorem pyStrip_idem (l : List Char) : pyStrip (pyStrip l) = pyStrip l := by
  unfold pyStrip
  have h₁ : lstripWS (rstripWS (lstripWS l)) = rstripWS (lstripWS l) := by
    refine lstripWS_of_head fun c hc => ?_
    have hne : rstripWS (lstripWS l) ≠ [] := by
      intro hcon
      rw [hcon] at hc
      simp at hc
    rw [rstripWS_keeps_head hne] at hc
    exact head_lstripWS hc
  rw [h₁, rstripWS_idem]

theorem mem_lstripWS {a : Char} {l : List Char} (h : a ∈ lstripWS l) : a ∈ l := by
  induction l with
  | nil => simp [lstripWS] at h
  | cons c r ih =>
    by_cases hs : isStripWS c = true
    · exact List.mem_cons_of_mem _ (ih (by simpa [lstripWS, List.dropWhile, hs] using h))
    · simp at hs
      simpa [lstripWS, List.dropWhile, hs] using h

theorem wsOnlySpace_pyStrip {l : List Char} (h : wsOnlySpace l = true) :
    wsOnlySpace (pyStrip l) = true := by
  refine wsOnlySpace_of_mem (fun a ha => ?_) h
  exact mem_lstripWS (mem_rstripWS ha)

theorem noAdjWS_pyStrip {l : List Char} (h : noAdjWS l = true) :
    noAdjWS (pyStrip l) = true :=
  noAdjWS_rstripWS (noAdjWS_dropWhile _ _ h)

/-- Claim C7: for every input string `s`, applying the text cleaner twice
yields the same result as applying it once —
`cleanText_clean (cleanText_clean s) = cleanText_clean s` — where
`cleanText_clean` collapses runs of whitespace (including the non-breaking
space and tab) to a single space and strips both ends. -/
theorem c7_clean_idempotent (s : List Char) :
    cleanText_clean (cleanText_clean s) = cleanText_clean s := by
  unfold cleanText_clean
  rw [collapseWS_id (noAdjWS_pyStrip (noAdjWS_collapseWS s))
        (wsOnlySpace_pyStrip (wsOnlySpace_collapseWS s)),
      pyStrip_idem]

/-! ## Decimal-parsing lemmas (towards C5, C6) -/

theorem isWS_stripWS {c : Char} (h : isWS c = true) : isStripWS c = true := by
  simp [isStripWS, h]

theorem noAdjWS_of_noWS {l : List Char} (h : ∀ c ∈ l, isWS c = false) :
    noAdjWS l = true := by
  induction l with
  | nil => rfl
  | cons c r ih =>
    cases r with
    | nil => rfl
    | cons d t =>
      have hd := h d (by simp)
      simp only [noAdjWS, hd, Bool.and_false, Bool.not_false, Bool.true_and]
      exact ih fun a ha => h a (List.mem_cons_of_mem _ ha)

theorem rstripWS_id_of_noStrip {l : List Char}
    (h : ∀ c ∈ l, isStripWS c = false) : rstripWS l = l := by
  induction l with
  | nil => rfl
  | cons c r ih =>
    have hr : rstripWS r = r := ih fun a ha => h a (List.mem_cons_of_mem _ ha)
    simp only [rstripWS, hr]
    cases r with
    | nil => simp [h c (by simp)]
    | cons d t => simp

theorem pyStrip_id_of_noStrip {l : List Char}
    (h : ∀ c ∈ l, isStripWS c = false) : pyStrip l = l := by
  have hl : lstripWS l = l := by
    cases l with
    | nil => rfl
    | cons c r => simp [lstripWS, List.dropWhile, h c (by simp)]
  unfold pyStrip
  rw [hl, rstripWS_id_of_noStrip h]

theorem cleanText_clean_id_of_noStrip {l : List Char}
    (h : ∀ c ∈ l, isStripWS c = false) : cleanText_clean l = l := by
  have hws : ∀ c ∈ l, isWS c = false := by
    intro c hc
    cases hval : isWS c with
    | false => rfl
    | true => exact absurd (h c hc) (by simp [isWS_stripWS hval])
  have hcol : collapseWS l = l :=
    collapseWS_id (noAdjWS_of_noWS hws)
      (by simp only [wsOnlySpace, List.all_eq_true]
          intro c hc
          simp [hws c hc])
  unfold cleanText_clean
  rw [hcol, pyStrip_id_of_noStrip h]

theorem cleanText_remove_nil (t : List Char) : cleanText_remove [] t = t := by
  simp [cleanText_remove]

theorem map_eq_self_of_eq {α : Type} {f : α → α} {l : List α}
    (h : ∀ a ∈ l, f a = a) : l.map f = l := by
  induction l with
  | nil => rfl
  | cons c r ih =>
    simp only [List.map_cons, h c (by simp)]
    rw [ih fun a ha => h a (List.mem_cons_of_mem _ ha)]

theorem takeWhile_append_stop {p : Char → Bool} {xs : List Char} {y : Char}
    (ys : List Char) (hx : ∀ a ∈ xs, p a = true) (hy : p y = false) :
    (xs ++ y :: ys).takeWhile p = xs := by
  induction xs with
  | nil => simp [List.takeWhile, hy]
  | cons c r ih =>
    simp only [List.cons_append, List.takeWhile, hx c (by simp), List.append_eq]
    rw [ih fun a ha => hx a (List.mem_cons_of_mem _ ha)]

theorem dropWhile_append_stop {p : Char → Bool} {xs : List Char} {y : Char}
    (ys : List Char) (hx : ∀ a ∈ xs, p a = true) (hy : p y = false) :
    (xs ++ y :: ys).dropWhile p = y :: ys := by
  induction xs with
  | nil => simp [List.dropWhile, hy]
  | cons c r ih =>
    simp only [List.cons_append, List.dropWhile, hx c (by simp), List.append_eq]
    exact ih fun a ha => hx a (List.mem_cons_of_mem _ ha)

theorem digitChar_isDig : ∀ d : Fin 10, isDig (digitChar d.val) = true := by decide

theorem digitChar_not_strip : ∀ d : Fin 10, isStripWS (digitChar d.val) = false := by
  decide

theorem digitChar_ne_dot : ∀ d : Fin 10, digitChar d.val ≠ '.' := by decide

theorem digitChar_ne_dash : ∀ d : Fin 10, digitChar d.val ≠ '-' := by decide

theorem digitChar_ne_comma : ∀ d : Fin 10, digitChar d.val ≠ ',' := by decide

theorem digitChar_val : ∀ d : Fin 10, (digitChar d.val).toNat - '0'.toNat = d.val := by
  decide

theorem digitsToNat_render (l : List (Fin 10)) :
    digitsToNat (renderDigits l) = natOfDigits l := by
  unfold digitsToNat renderDigits natOfDigits
  rw [List.foldl_map]
  congr 1
  funext a d
  rw [digitChar_val d]

theorem natOfDigits_append (xs ys : List (Fin 10)) :
    natOfDigits (xs ++ ys) = natOfDigits xs * 10 ^ ys.length + natOfDigits ys := by
  unfold natOfDigits
  rw [List.foldl_append]
  generalize List.foldl _ 0 xs = a
  induction ys generalizing a with
  | nil => simp
  | cons d t ih =>
    simp only [List.foldl_cons, List.length_cons]
    rw [ih (10 * a + d.val)]
    simp only [Nat.mul_zero, Nat.zero_add]
    rw [ih d.val]
    ring

theorem renderDigits_facts {c : Char} {l : List (Fin 10)}
    (hc : c ∈ renderDigits l) :
    isDig c = true ∧ isStripWS c = false ∧ c ≠ '.' ∧ c ≠ '-' ∧ c ≠ ',' := by
  obtain ⟨d, _, rfl⟩ := List.mem_map.mp hc
  exact ⟨digitChar_isDig d, digitChar_not_strip d, digitChar_ne_dot d,
    digitChar_ne_dash d, digitChar_ne_comma d⟩

theorem parseDecStr_renderDigits (ds fs : List (Fin 10)) (hne : ds ≠ []) :
    parseDecStr (renderDigits ds ++ '.' :: renderDigits fs) =
      some ⟨(natOfDigits (ds ++ fs) : Int), fs.length⟩ := by
  have hstrip : ∀ c ∈ renderDigits ds ++ '.' :: renderDigits fs,
      isStripWS c = false := by
    intro c hc
    rcases List.mem_append.mp hc with h | h
    · exact (renderDigits_facts h).2.1
    · rcases List.mem_cons.mp h with rfl | h
      · decide
      · exact (renderDigits_facts h).2.1
  obtain ⟨d₀, ds', rfl⟩ := List.exists_cons_of_ne_nil hne
  simp only [parseDecStr, pyStrip_id_of_noStrip hstrip]
  have hhead : (renderDigits (d₀ :: ds') ++ '.' :: renderDigits fs).head? =
      some (digitChar d₀.val) := by
    simp [renderDigits]
  rw [hhead]
  have hneg : (some (digitChar d₀.val) == some '-') = false := by
    simp [digitChar_ne_dash d₀]
  rw [hneg]
  simp only [Bool.false_eq_true, if_false]
  have htake : (renderDigits (d₀ :: ds') ++ '.' :: renderDigits fs).takeWhile
      (fun c => decide (c ≠ '.')) = renderDigits (d₀ :: ds') := by
    refine takeWhile_append_stop _ (fun a ha => ?_) (by decide)
    simp [(renderDigits_facts ha).2.2.1]
  have hdrop : (renderDigits (d₀ :: ds') ++ '.' :: renderDigits fs).dropWhile
      (fun c => decide (c ≠ '.')) = '.' :: renderDigits fs := by
    refine dropWhile_append_stop _ (fun a ha => ?_) (by decide)
    simp [(renderDigits_facts ha).2.2.1]
  rw [htake, hdrop]
  have hall₁ : (renderDigits (d₀ :: ds')).all isDig = true :=
    List.all_eq_true.mpr fun a ha => (renderDigits_facts ha).1
  have hall₂ : (renderDigits fs).all isDig = true :=
    List.all_eq_true.mpr fun a ha => (renderDigits_facts ha).1
  have hlen : (renderDigits fs).length = fs.length := by simp [renderDigits]
  have hEmpty : (renderDigits (d₀ :: ds') ++ renderDigits fs).isEmpty = false := by
    simp [renderDigits]
  have hmant : digitsToNat (renderDigits (d₀ :: ds') ++ renderDigits fs) =
      natOfDigits ((d₀ :: ds') ++ fs) := by
    have h : renderDigits (d₀ :: ds') ++ renderDigits fs =
        renderDigits ((d₀ :: ds') ++ fs) := by
      simp [renderDigits]
    rw [h, digitsToNat_render]
  simp only [hall₁, hall₂, hEmpty, hmant, hlen, Bool.not_false, Bool.and_self,
    Bool.true_and, Bool.and_true, if_true, Int.one_mul, one_mul,
    List.cons_append]

theorem cleanDecimal_renderDigits (ds fs : List (Fin 10)) (hne : ds ≠ []) :
    cleanDecimal_filter true none
      (.str (renderDigits ds ++ ',' :: renderDigits fs)) =
      .ok ⟨(natOfDigits (ds ++ fs) : Int), fs.length⟩ := by
  have hclean : cleanText_filter []
      (.str (renderDigits ds ++ ',' :: renderDigits fs)) =
      renderDigits ds ++ ',' :: renderDigits fs := by
    show cleanText_remove [] (cleanText_clean _) = _
    rw [cleanText_remove_nil]
    refine cleanText_clean_id_of_noStrip fun c hc => ?_
    rcases List.mem_append.mp hc with h | h
    · exact (renderDigits_facts h).2.1
    · rcases List.mem_cons.mp h with rfl | h
      · decide
      · exact (renderDigits_facts h).2.1
  have hrm : pyRemoveChar '.' (renderDigits ds ++ ',' :: renderDigits fs) =
      renderDigits ds ++ ',' :: renderDigits fs := by
    refine List.filter_eq_self.mpr fun a ha => ?_
    rcases List.mem_append.mp ha with h | h
    · simp [(renderDigits_facts h).2.2.1]
    · rcases List.mem_cons.mp h with rfl | h
      · decide
      · simp [(renderDigits_facts h).2.2.1]
  have hrepl : pyReplaceChar ',' '.' (renderDigits ds ++ ',' :: renderDigits fs) =
      renderDigits ds ++ '.' :: renderDigits fs := by
    unfold pyReplaceChar
    rw [List.map_append, List.map_cons,
        map_eq_self_of_eq fun a ha => by simp [(renderDigits_facts ha).2.2.2.2],
        map_eq_self_of_eq fun a ha => by simp [(renderDigits_facts ha).2.2.2.2]]
    norm_num
  have hkeep : keepDecChars (renderDigits ds ++ '.' :: renderDigits fs) =
      renderDigits ds ++ '.' :: renderDigits fs := by
    refine List.filter_eq_self.mpr fun a ha => ?_
    rcases List.mem_append.mp ha with h | h
    · simp [(renderDigits_facts h).1]
    · rcases List.mem_cons.mp h with rfl | h
      · decide
      · simp [(renderDigits_facts h).1]
  simp only [cleanDecimal_filter, hclean, if_true, hrm, hrepl, hkeep,
    parseDecStr_renderDigits ds fs hne]

/-- Claim C6: with continental normalisation enabled, the decimal parser maps
`"1.234,56"` to exactly `1234.56` and `"-12,00"` to exactly `-12.00`, and
parsing is an exact decimal computation (no floating point): for every
rendered digit string `ds ++ "," ++ fs` with at most 6 fractional digits, the
result is exactly the rational `intpart + fracpart / 10 ^ |fs|`. -/
theorem c6_cleanDecimal_exact :
    (cleanDecimal_filter true none (.str "1.234,56".toList) = .ok ⟨123456, 2⟩ ∧
      decToRat ⟨123456, 2⟩ = 1234.56) ∧
    (cleanDecimal_filter true none (.str "-12,00".toList) = .ok ⟨-1200, 2⟩ ∧
      decToRat ⟨-1200, 2⟩ = -12) ∧
    ∀ (ds fs : List (Fin 10)), ds ≠ [] → fs.length ≤ 6 →
      cleanDecimal_filter true none
          (.str (renderDigits ds ++ ',' :: renderDigits fs)) =
        .ok ⟨(natOfDigits (ds ++ fs) : Int), fs.length⟩ ∧
      decToRat ⟨(natOfDigits (ds ++ fs) : Int), fs.length⟩ =
        (natOfDigits ds : ℚ) + (natOfDigits fs : ℚ) / 10 ^ fs.length := by
  refine ⟨⟨by rfl, by norm_num [decToRat]⟩,
          ⟨by rfl, by norm_num [decToRat]⟩, ?_⟩
  intro ds fs hne _
  refine ⟨cleanDecimal_renderDigits ds fs hne, ?_⟩
  unfold decToRat
  push_cast [natOfDigits_append]
  have h10 : (10 : ℚ) ^ fs.length ≠ 0 := by positivity
  field_simp

/-- Witness for C6: the general exactness statement applied to the concrete
digit strings `[1]` and `[5]` (the input `"1,5"`). -/
theorem c6_witness :
    cleanDecimal_filter true none
        (.str (renderDigits [1] ++ ',' :: renderDigits [5])) =
      .ok ⟨(natOfDigits ([1] ++ [5]) : Int), [(5 : Fin 10)].length⟩ ∧
    decToRat ⟨(natOfDigits ([1] ++ [5]) : Int), [(5 : Fin 10)].length⟩ =
      (natOfDigits [1] : ℚ) + (natOfDigits [5] : ℚ) / 10 ^ [(5 : Fin 10)].length :=
  c6_cleanDecimal_exact.2.2 [1] [5] (by decide) (by norm_num)

/-- Counterexample to Claim C5 as stated: `CleanDecimal` constructed **with a
default** still raises on a failing input when the default itself is not
decimal-convertible — the same input without a default raises, and with the
configured default `"oops"` the combinator raises `InvalidOperation` instead
of returning that default. -/
theorem c5_counterexample :
    cleanDecimal_filter true none (.str "xyz".toList) =
      .error .invalidOperation ∧
    cleanDecimal_filter true (some (.str "oops".toList)) (.str "xyz".toList) =
      .error .invalidOperation :=
  ⟨rfl, rfl⟩

/-- Claim C5 (amended): on an input where extraction cannot produce a value,
`Map` with a default returns exactly that default and without one raises
`KeyError`; `CleanDecimal` without a default raises `InvalidOperation`,
while with a default it returns `Decimal(default)` — the default coerced
through `Decimal`, which yields the default's decimal value for numeric
defaults and itself raises when the default is not decimal-convertible. -/
theorem c5_default_vs_raise :
    (∀ (d : List (PyVal × PyVal)) (dv txt : PyVal), lookupDict d txt = none →
      map_filter d (some dv) txt = .ok dv) ∧
    (∀ (d : List (PyVal × PyVal)) (txt : PyVal), lookupDict d txt = none →
      map_filter d none txt = .error .keyError) ∧
    (∀ (rd : Bool) (txt : TextInput),
      cleanDecimal_filter rd none txt = .error .invalidOperation →
      ∀ dv, cleanDecimal_filter rd (some dv) txt = pyDecimalOf dv) := by
  refine ⟨?_, ?_, ?_⟩
  · intro d dv txt h
    simp [map_filter, h]
  · intro d txt h
    simp [map_filter, h]
  · intro rd txt h dv
    simp only [cleanDecimal_filter] at h ⊢
    cases hp : parseDecStr (keepDecChars
        (if rd then pyReplaceChar ',' '.' (pyRemoveChar '.' (cleanText_filter [] txt))
         else cleanText_filter [] txt)) with
    | some v => rw [hp] at h; exact Except.noConfusion h
    | none => rfl

/-- Witness for C5 (amended): concrete failing inputs — `Map` over the empty
dictionary returns the default `7` (and raises `KeyError` without one), and
`CleanDecimal` with the decimal default `0` returns `Decimal(0)`. -/
theorem c5_witness :
    map_filter [] (some (.int 7)) (.str "k".toList) = .ok (.int 7) ∧
    map_filter [] none (.str "k".toList) = .error .keyError ∧
    cleanDecimal_filter true (some (.dec ⟨0, 0⟩)) (.str "xyz".toList) =
      pyDecimalOf (.dec ⟨0, 0⟩) :=
  ⟨c5_default_vs_raise.1 [] (.int 7) (.str "k".toList) rfl,
   c5_default_vs_raise.2.1 [] (.str "k".toList) rfl,
   c5_default_vs_raise.2.2 true (.str "xyz".toList) rfl (.dec ⟨0, 0⟩)⟩

/-! ## Dispatch lemmas (towards C1) -/

theorem reRun_sound : ∀ (fuel : Nat) (r : Regex) (s : List Char) (caps : Caps)
    (rest : List Char), (caps, rest) ∈ reRun fuel r s →
    ∃ pre, s = pre ++ rest ∧ RMatch r pre := by
  intro fuel
  induction fuel with
  | zero => intro r s caps rest h; simp [reRun] at h
  | succ f ih =>
    intro r s caps rest h
    cases r with
    | eps =>
      simp only [reRun, List.mem_singleton, Prod.mk.injEq] at h
      exact ⟨[], by simp [h.2], RMatch.eps⟩
    | lit c =>
      cases s with
      | nil => simp [reRun] at h
      | cons c' s' =>
        by_cases hc : c' = c
        · simp only [reRun, hc, if_true, List.mem_singleton, Prod.mk.injEq] at h
          exact ⟨[c], by simp [h.2, hc], RMatch.lit c⟩
        · simp [reRun, hc] at h
    | anyc =>
      cases s with
      | nil => simp [reRun] at h
      | cons c' s' =>
        by_cases hc : c' = '\n'
        · simp [reRun, hc] at h
        · simp only [reRun, hc, ne_eq, not_false_iff, if_true,
            List.mem_singleton, Prod.mk.injEq] at h
          exact ⟨[c'], by simp [h.2], RMatch.anyc c' hc⟩
    | cls neg cs =>
      cases s with
      | nil => simp [reRun] at h
      | cons c' s' =>
        by_cases hc : clsMem neg cs c' = true
        · simp only [reRun, hc, if_true, List.mem_singleton, Prod.mk.injEq] at h
          exact ⟨[c'], by simp [h.2], RMatch.cls neg cs c' hc⟩
        · simp [reRun, hc] at h
    | cat a b =>
      simp only [reRun, List.mem_flatMap, List.mem_map] at h
      obtain ⟨⟨g₁, s₁⟩, hmem₁, ⟨g₂, s₂⟩, hmem₂, heq⟩ := h
      obtain ⟨p₁, hs₁, hm₁⟩ := ih a s g₁ s₁ hmem₁
      obtain ⟨p₂, hs₂, hm₂⟩ := ih b s₁ g₂ s₂ hmem₂
      refine ⟨p₁ ++ p₂, ?_, RMatch.cat hm₁ hm₂⟩
      rw [hs₁, hs₂, List.append_assoc]
      rw [show s₂ = rest from congrArg Prod.snd heq]
    | alt a b =>
      simp only [reRun, List.mem_append] at h
      rcases h with h | h
      · obtain ⟨p, hs, hm⟩ := ih a s caps rest h
        exact ⟨p, hs, RMatch.altL b hm⟩
      · obtain ⟨p, hs, hm⟩ := ih b s caps rest h
        exact ⟨p, hs, RMatch.altR a hm⟩
    | star a =>
      simp only [reRun, List.mem_append, List.mem_flatMap, List.mem_filter,
        List.mem_map, List.mem_singleton, Prod.mk.injEq] at h
      rcases h with ⟨⟨g₁, s₁⟩, ⟨hmem₁, _⟩, ⟨g₂, s₂⟩, hmem₂, heq⟩ | h
      · obtain ⟨p₁, hs₁, hm₁⟩ := ih a s g₁ s₁ hmem₁
        obtain ⟨p₂, hs₂, hm₂⟩ := ih (.star a) s₁ g₂ s₂ hmem₂
        refine ⟨p₁ ++ p₂, ?_, RMatch.starCons hm₁ hm₂⟩
        rw [hs₁, hs₂, List.append_assoc]
        rw [show s₂ = rest from heq.2]
      · exact ⟨[], by simp [h.2], RMatch.starNil a⟩
    | group i a =>
      simp only [reRun, List.mem_map] at h
      obtain ⟨⟨g, s'⟩, hmem, heq⟩ := h
      obtain ⟨p, hs, hm⟩ := ih a s g s' hmem
      refine ⟨p, ?_, RMatch.group i hm⟩
      rw [hs]
      rw [show s' = rest from congrArg Prod.snd heq]

theorem reFullMatch_sound {r : Regex} {s : List Char} {caps : Caps}
    (h : reFullMatch r s = some caps) :
    RMatch r s ∨ ∃ u, s = u ++ ['\n'] ∧ RMatch r u := by
  unfold reFullMatch at h
  obtain ⟨⟨g, rest⟩, hfind, hcaps⟩ := Option.map_eq_some'.mp h
  have hmem := List.mem_of_find?_eq_some hfind
  have hpred := List.find?_some hfind
  simp only [Bool.or_eq_true, List.isEmpty_iff, beq_iff_eq] at hpred
  obtain ⟨pre, hs, hm⟩ := reRun_sound _ r s g rest hmem
  rcases hpred with hrest | hrest
  · left
    rw [hs, hrest, List.append_nil]
    exact hm
  · right
    exact ⟨pre, by rw [hs, hrest], hm⟩

theorem dispatch_eq_spec (pages : List (Regex × PageCls)) (url : List Char) :
    dispatch pages url = dispatchSpec pages url := by
  induction pages with
  | nil => rfl
  | cons kv rest ih =>
    obtain ⟨k, v⟩ := kv
    cases hm : reFullMatch k url with
    | some caps =>
      simp [dispatch, dispatchSpec, hm, List.find?_cons]
    | none =>
      simp only [dispatch, hm, ih, dispatchSpec]
      rw [List.find?_cons_of_neg _ (by simp [hm])]

theorem dispatch_mem_sound (pages : List (Regex × PageCls)) (url : List Char)
    (cls : PageCls) (caps : Caps) (h : dispatch pages url = some (cls, caps)) :
    ∃ k, (k, cls) ∈ pages ∧ reFullMatch k url = some caps := by
  induction pages with
  | nil => simp [dispatch] at h
  | cons kv rest ih =>
    obtain ⟨k, v⟩ := kv
    cases hm : reFullMatch k url with
    | some c =>
      simp only [dispatch, hm, Option.some.injEq, Prod.mk.injEq] at h
      exact ⟨k, by simp [h.1], by rw [hm, h.2]⟩
    | none =>
      simp only [dispatch, hm] at h
      obtain ⟨k', hk', hf⟩ := ih h
      exact ⟨k', List.mem_cons_of_mem _ hk', hf⟩

theorem dispatch_reorder (pre post : List (Regex × PageCls))
    (A B : Regex × PageCls) (url : List Char)
    (h : reFullMatch A.1 url = none ∨ reFullMatch B.1 url = none) :
    dispatch (pre ++ A :: B :: post) url = dispatch (pre ++ B :: A :: post) url := by
  induction pre with
  | nil =>
    obtain ⟨ka, va⟩ := A
    obtain ⟨kb, vb⟩ := B
    simp only at h
    rcases h with h | h
    · cases hb : reFullMatch kb url with
      | some c => simp [dispatch, h, hb]
      | none => simp [dispatch, h, hb]
    · cases ha : reFullMatch ka url with
      | some c => simp [dispatch, h, ha]
      | none => simp [dispatch, h, ha]
  | cons kv r ih =>
    obtain ⟨k, v⟩ := kv
    cases hm : reFullMatch k url with
    | some c => simp [dispatch, hm]
    | none => simp [dispatch, hm, ih]

/-- Counterexample to Claim C1 as stated: the code does **not** evaluate the
bindings in declaration order — `PAGES` is an unordered Python 2 dict and
`_change_location` walks `self.PAGES.items()` in the dict's hash order.  For
two overlapping patterns that both match a URL (as e.g. the creditdunord
module declares), the dispatch result depends on which of the two possible
iteration sequences of the same two-entry dict the runtime yields; since
that order is not the declaration order, "the first binding in declaration
order wins" is not a property of the program. -/
theorem c1_counterexample :
    dispatch [(Regex.star .anyc, 0), (rlit ['u'], 1)] ['u'] = some (0, []) ∧
    dispatch [(rlit ['u'], 1), (Regex.star .anyc, 0)] ['u'] = some (1, []) ∧
    dispatch [(Regex.star .anyc, 0), (rlit ['u'], 1)] ['u'] ≠
      dispatch [(rlit ['u'], 1), (Regex.star .anyc, 0)] ['u'] := by
  refine ⟨by decide, by decide, by decide⟩

/-- Claim C1 (amended): `_change_location`'s dispatch walks the sequence that
`PAGES.items()` yields — the dict's iteration order, which is **not** the
declaration order and is not caller-controlled — and returns the page class
and captured groups of the first binding of that sequence whose pattern,
anchored at both ends by `'^%s$'`, matches; a selected pattern matches the
whole URL (or all but Python's tolerated trailing newline) — never merely a
substring, as the last conjunct shows on a pattern that occurs inside the
URL without matching it; and swapping two adjacent bindings of which at most
one matches the URL leaves the result unchanged, so only for overlapping
patterns does the (uncontrolled) order matter. -/
theorem c1_dispatch_first_match :
    (∀ (pages : List (Regex × PageCls)) (url : List Char),
      dispatch pages url = dispatchSpec pages url) ∧
    (∀ (pages : List (Regex × PageCls)) (url : List Char) (cls : PageCls)
      (caps : Caps), dispatch pages url = some (cls, caps) →
      ∃ k, (k, cls) ∈ pages ∧ reFullMatch k url = some caps ∧
        (RMatch k url ∨ ∃ u, url = u ++ ['\n'] ∧ RMatch k u)) ∧
    (∀ (pre post : List (Regex × PageCls)) (A B : Regex × PageCls)
      (url : List Char),
      reFullMatch A.1 url = none ∨ reFullMatch B.1 url = none →
      dispatch (pre ++ A :: B :: post) url = dispatch (pre ++ B :: A :: post) url) ∧
    (dispatch [(.lit 'a', 0)] ['a', 'b'] = none ∧
      reSearch (.lit 'a') ['a', 'b'] = true) := by
  refine ⟨dispatch_eq_spec, ?_, dispatch_reorder, by decide, by decide⟩
  intro pages url cls caps h
  obtain ⟨k, hk, hf⟩ := dispatch_mem_sound pages url cls caps h
  exact ⟨k, hk, hf, reFullMatch_sound hf⟩

/-- Witness for C1: the first-match equation, the anchored-soundness part and
the reordering part applied at concrete tables and URLs. -/
theorem c1_witness :
    dispatch [(Regex.lit 'a', 1), (Regex.lit 'b', 2)] ['a'] =
      dispatch [(Regex.lit 'b', 2), (Regex.lit 'a', 1)] ['a'] ∧
    ∃ k, (k, 1) ∈ [(Regex.lit 'a', 1)] ∧ reFullMatch k ['a'] = some [] ∧
      (RMatch k ['a'] ∨ ∃ u, ['a'] = u ++ ['\n'] ∧ RMatch k u) :=
  ⟨c1_dispatch_first_match.2.2.1 [] [] (Regex.lit 'a', 1) (Regex.lit 'b', 2)
      ['a'] (Or.inr (by decide)),
   c1_dispatch_first_match.2.1 [(Regex.lit 'a', 1)] ['a'] 1 [] (by decide)⟩

/-! ## URL-normalisation lemmas (towards C9) -/

theorem splitLines_ne_nil (s : List Char) : splitLines s ≠ [] := by
  cases s with
  | nil => simp [splitLines]
  | cons c r =>
    by_cases hc : c = '\n'
    · simp [splitLines, hc]
    · simp only [splitLines, hc, if_false]
      cases splitLines r <;> simp

theorem joinLines_splitLines (s : List Char) : joinLines (splitLines s) = s := by
  induction s with
  | nil => rfl
  | cons c r ih =>
    by_cases hc : c = '\n'
    · subst hc
      simp only [splitLines, if_true]
      obtain ⟨l, ls, hls⟩ := List.exists_cons_of_ne_nil (splitLines_ne_nil r)
      rw [hls] at ih ⊢
      simp [joinLines, ih]
    · simp only [splitLines, hc, if_false]
      obtain ⟨l, ls, hls⟩ := List.exists_cons_of_ne_nil (splitLines_ne_nil r)
      rw [hls] at ih ⊢
      cases ls with
      | nil => simp only [joinLines] at ih ⊢; rw [ih]
      | cons y t =>
        simp only [joinLines, List.cons_append] at ih ⊢
        rw [ih]

theorem mem_of_mem_splitLines {c : Char} {l s : List Char}
    (hl : l ∈ splitLines s) (hc : c ∈ l) : c ∈ s := by
  induction s generalizing l with
  | nil =>
    simp [splitLines] at hl
    subst hl
    simp at hc
  | cons x r ih =>
    by_cases hx : x = '\n'
    · simp only [splitLines, hx, if_true, List.mem_cons] at hl
      rcases hl with rfl | hl
      · simp at hc
      · exact List.mem_cons_of_mem _ (ih hl hc)
    · simp only [splitLines, hx, if_false] at hl
      obtain ⟨l', ls, hls⟩ := List.exists_cons_of_ne_nil (splitLines_ne_nil r)
      rw [hls] at hl
      rcases List.mem_cons.mp hl with rfl | hl
      · rcases List.mem_cons.mp hc with rfl | hc
        · simp
        · exact List.mem_cons_of_mem _ (ih (by rw [hls]; simp) hc)
      · exact List.mem_cons_of_mem _
          (ih (by rw [hls]; exact List.mem_cons_of_mem _ hl) hc)

theorem splitLines_no_newline {s : List Char} (h : ¬ '\n' ∈ s) :
    splitLines s = [s] := by
  induction s with
  | nil => rfl
  | cons c r ih =>
    have hc : c ≠ '\n' := fun hcon => h (by simp [hcon])
    simp only [splitLines, hc, if_false]
    rw [ih fun hcon => h (List.mem_cons_of_mem _ hcon)]

theorem cutAtLastHash_no_hash {l : List Char} (h : '#' ∉ l) :
    cutAtLastHash l = l := by
  unfold cutAtLastHash
  have hc : l.contains '#' = false := by simpa using h
  rw [hc]
  simp

theorem pySubFragment_no_hash {s : List Char} (h : '#' ∉ s) :
    pySubFragment s = s := by
  unfold pySubFragment
  rw [map_eq_self_of_eq, joinLines_splitLines]
  intro l hl
  exact cutAtLastHash_no_hash fun hcon => h (mem_of_mem_splitLines hl hcon)

theorem cutAtLastHash_last {a b : List Char} (hb : '#' ∉ b) :
    cutAtLastHash (a ++ '#' :: b) = a := by
  unfold cutAtLastHash
  have hmem : (a ++ '#' :: b).contains '#' = true := by simp
  rw [hmem, if_pos rfl]
  rw [List.reverse_append, List.reverse_cons]
  rw [List.append_assoc, List.singleton_append]
  rw [dropWhile_append_stop a.reverse
      (fun x hx => by
        simp only [List.mem_reverse] at hx
        simp only [decide_eq_true_eq]
        exact fun hcon => hb (hcon ▸ hx))
      (by decide)]
  simp

theorem pySubFragment_last_hash {a b : List Char} (hnl : ¬ '\n' ∈ a ++ '#' :: b)
    (hb : '#' ∉ b) : pySubFragment (a ++ '#' :: b) = a := by
  unfold pySubFragment
  rw [splitLines_no_newline hnl]
  simp only [List.map_cons, List.map_nil, cutAtLastHash_last hb]
  rfl

/-! ## One-step unfolding equations of the engine (all definitional) -/

theorem browserRun_zero (cfg : Cfg) (st : BState) (t : BTask) :
    browserRun cfg 0 st t = (st, [], .error .outOfFuel) := rfl

theorem browserRun_loc (cfg : Cfg) (fuel : Nat) (st : BState) (url : List Char)
    (nl : Bool) :
    browserRun cfg (fuel+1) st (.loc url nl) =
      browserRun cfg fuel st (.locAttempts retryTries
        (checkLocation cfg.protocol cfg.domain st.reqHost url) nl) := rfl

theorem browserRun_locAttempts (cfg : Cfg) (fuel n : Nat) (st : BState)
    (url : List Char) (nl : Bool) :
    browserRun cfg (fuel+1) st (.locAttempts n url nl) =
      match n, browserRun cfg fuel st (.locBody url nl) with
      | n+2, (st₁, tr₁, .error .browserHTTPError) =>
        ((browserRun cfg fuel st₁ (.locAttempts (n+1) url nl)).1,
         tr₁ ++ (browserRun cfg fuel st₁ (.locAttempts (n+1) url nl)).2.1,
         (browserRun cfg fuel st₁ (.locAttempts (n+1) url nl)).2.2)
      | _, r => r := rfl

theorem browserRun_locBody (cfg : Cfg) (fuel : Nat) (st : BState)
    (url : List Char) (nl : Bool) :
    browserRun cfg (fuel+1) st (.locBody url nl) =
      match cfg.fetch url with
      | .err e => ({ st with page := none }, [.fetched url], .error (getExc e))
      | .ok resp =>
        match browserRun cfg fuel { st with reqHost := some (hostOf resp.url) }
            (.chg resp nl) with
        | (st₁, tr₁, .error .browserRetry) =>
          if (match st₁.page with
              | none => true
              | some p => p.url ≠ url) then
            ((browserRun cfg fuel st₁ (.loc url true)).1,
             .fetched url :: tr₁ ++ (browserRun cfg fuel st₁ (.loc url true)).2.1,
             (browserRun cfg fuel st₁ (.loc url true)).2.2)
          else (st₁, .fetched url :: tr₁, .ok ())
        | (st₁, tr₁, res) => (st₁, .fetched url :: tr₁, res) := rfl

theorem browserRun_chg (cfg : Cfg) (fuel : Nat) (st : BState) (resp : Response)
    (nl : Bool) :
    browserRun cfg (fuel+1) st (.chg resp nl) =
      match dispatch cfg.pages resp.url with
      | none =>
        ({ st with page := none },
         [.warnedNoPage resp.url, .savedResponse resp.url], .ok ())
      | some (cls, caps) =>
        let pg : Page := ⟨st.nextPid, cls, resp.url, resp.doc, caps⟩
        let st₁ := { st with page := some pg, nextPid := st.nextPid + 1 }
        if !nl && cfg.hasPassword && !cfg.isLogged st₁.page then
          match browserRun cfg fuel st₁ (.prog cfg.loginProg) with
          | (st₂, tr₂, .ok ()) =>
            (st₂, .constructed pg.pid resp.url :: .loginCalled :: tr₂,
             .error .browserRetry)
          | (st₂, tr₂, .error e) =>
            (st₂, .constructed pg.pid resp.url :: .loginCalled :: tr₂, .error e)
        else (st₁, [.constructed pg.pid resp.url, .onLoaded pg.pid], .ok ()) := rfl

theorem browserRun_prog_nil (cfg : Cfg) (fuel : Nat) (st : BState) :
    browserRun cfg (fuel+1) st (.prog []) = (st, [], .ok ()) := rfl

theorem browserRun_prog_cons (cfg : Cfg) (fuel : Nat) (st : BState)
    (u : List Char) (nl : Bool) (rest : List (List Char × Bool)) :
    browserRun cfg (fuel+1) st (.prog ((u, nl) :: rest)) =
      match browserRun cfg fuel st (.loc u nl) with
      | (st₁, tr₁, .ok ()) =>
        ((browserRun cfg fuel st₁ (.prog rest)).1,
         tr₁ ++ (browserRun cfg fuel st₁ (.prog rest)).2.1,
         (browserRun cfg fuel st₁ (.prog rest)).2.2)
      | (st₁, tr₁, .error e) => (st₁, tr₁, .error e) := rfl

/-! ## Trace-head lemmas (towards C9) -/

theorem locBody_head (cfg : Cfg) (g : Nat) (st : BState) (u : List Char)
    (nl : Bool) :
    ((browserRun cfg (g+1) st (.locBody u nl)).2.1).head? = some (.fetched u) := by
  rw [browserRun_locBody]
  split
  · rfl
  · split
    · split <;> rfl
    · rfl

theorem locAttempts_head (cfg : Cfg) (g n : Nat) (st : BState) (u : List Char)
    (nl : Bool) :
    ((browserRun cfg (g+2) st (.locAttempts n u nl)).2.1).head? =
      some (.fetched u) := by
  have hh := locBody_head cfg g st u nl
  rw [show g + 2 = (g + 1) + 1 from rfl, browserRun_locAttempts]
  rcases hr : browserRun cfg (g+1) st (.locBody u nl) with ⟨st₁, tr₁, res⟩
  rw [hr] at hh
  simp only at hh
  rcases n with _ | _ | m
  · exact hh
  · exact hh
  · cases res with
    | ok v => exact hh
    | error e =>
      cases e <;> try exact hh
      cases tr₁ with
      | nil => simp at hh
      | cons ev tr' => simpa using hh

/-- Counterexample to Claim C9 as stated: for the target `"/x#a#b"` the code
does not strip "everything from `'#'` onward" — `re.sub('(.*)#.*', r'\1', …)`
is greedy, so only the part from the *last* `'#'` is dropped and a `'#'`
survives in the issued URL. -/
theorem c9_counterexample :
    checkLocation "http".toList "dom".toList none "/x#a#b".toList =
      "http://dom/x#a".toList ∧
    "http://dom/x#a".toList ≠ "http://dom/x".toList :=
  ⟨by decide, by decide⟩

/-- Claim C9 (amended): `check_location` prefixes a `/`-relative target with
`PROTOCOL://DOMAIN` exactly when there is no current request or its host
differs from `DOMAIN`, and then strips everything from the **last** `'#'`
of each newline-free segment (a `'#'`-free target passes unchanged); the
engine issues the request for precisely this normalised URL. -/
theorem c9_checkLocation_normalises :
    (∀ (protocol domain : List Char) (rh : Option (List Char)) (url : List Char),
      url.head? ≠ some '/' →
      checkLocation protocol domain rh url = pySubFragment url) ∧
    (∀ (protocol domain url : List Char),
      checkLocation protocol domain (some domain) url = pySubFragment url) ∧
    (∀ (protocol domain : List Char) (rh : Option (List Char)) (url : List Char),
      url.head? = some '/' → (rh = none ∨ rh ≠ some domain) →
      checkLocation protocol domain rh url =
        pySubFragment (protocol ++ ':' :: '/' :: '/' :: domain ++ url)) ∧
    (∀ s : List Char, '#' ∉ s → pySubFragment s = s) ∧
    (∀ a b : List Char, '\n' ∉ a ++ '#' :: b → '#' ∉ b →
      pySubFragment (a ++ '#' :: b) = a) ∧
    (∀ (cfg : Cfg) (f : Nat) (st : BState) (url : List Char) (nl : Bool),
      ((browserRun cfg (f+3) st (.loc url nl)).2.1).head? =
        some (.fetched (checkLocation cfg.protocol cfg.domain st.reqHost url))) := by
  refine ⟨?_, ?_, ?_, fun s h => pySubFragment_no_hash h,
    fun a b h1 h2 => pySubFragment_last_hash h1 h2, ?_⟩
  · intro protocol domain rh url h
    simp only [checkLocation]
    rw [if_neg]
    intro hcon
    exact h hcon.1
  · intro protocol domain url
    simp only [checkLocation]
    rw [if_neg]
    intro hcon
    rcases hcon.2 with h | h
    · exact Option.noConfusion h
    · exact h rfl
  · intro protocol domain rh url h1 h2
    simp only [checkLocation]
    rw [if_pos ⟨h1, h2⟩]
  · intro cfg f st url nl
    rw [show f + 3 = (f + 2) + 1 from rfl, browserRun_loc]
    exact locAttempts_head cfg f retryTries st _ nl

/-- Witness for C9 (amended): the prefix rule and the last-`'#'` rule at
concrete inputs. -/
theorem c9_witness :
    checkLocation "http".toList "dom".toList none "/p".toList =
      pySubFragment ("http".toList ++ ':' :: '/' :: '/' :: "dom".toList ++
        "/p".toList) ∧
    pySubFragment ("ab".toList ++ '#' :: "cd".toList) = "ab".toList :=
  ⟨c9_checkLocation_normalises.2.2.1 "http".toList "dom".toList none
      "/p".toList (by decide) (Or.inl rfl),
   c9_checkLocation_normalises.2.2.2.2.1 "ab".toList "cd".toList (by decide)
      (by decide)⟩

/-! ## Transport-failure lemmas (towards C10) -/

theorem getExc_cases (e : TransportError) :
    getExc e = .browserHTTPError ∨ getExc e = .browserHTTPNotFound := by
  unfold getExc
  split
  · exact Or.inr rfl
  · exact Or.inl rfl

theorem locBody_err (cfg : Cfg) (g : Nat) (st : BState) (u : List Char)
    (nl : Bool) (e : TransportError) (hf : cfg.fetch u = .err e) :
    browserRun cfg (g+1) st (.locBody u nl) =
      ({ st with page := none }, [.fetched u], .error (getExc e)) := by
  rw [browserRun_locBody, hf]

theorem location_fetch_err (cfg : Cfg) (f : Nat) (st : BState) (url : List Char)
    (nl : Bool) (e : TransportError)
    (hf : cfg.fetch (checkLocation cfg.protocol cfg.domain st.reqHost url) = .err e) :
    ∃ tr, browserRun cfg (f+8) st (.loc url nl) =
      ({ st with page := none }, tr, .error (getExc e)) := by
  have hb : ∀ (g : Nat) (st' : BState),
      browserRun cfg (g+1) st'
        (.locBody (checkLocation cfg.protocol cfg.domain st.reqHost url) nl) =
      ({ st' with page := none },
       [.fetched (checkLocation cfg.protocol cfg.domain st.reqHost url)],
       .error (getExc e)) :=
    fun g st' => locBody_err cfg g st' _ nl e hf
  rcases getExc_cases e with hge | hge
  · rw [hge] at hb ⊢
    refine ⟨[.fetched (checkLocation cfg.protocol cfg.domain st.reqHost url),
             .fetched (checkLocation cfg.protocol cfg.domain st.reqHost url),
             .fetched (checkLocation cfg.protocol cfg.domain st.reqHost url)], ?_⟩
    simp only [browserRun_loc, retryTries, browserRun_locAttempts, hb,
      List.singleton_append]
  · rw [hge] at hb ⊢
    refine ⟨[.fetched (checkLocation cfg.protocol cfg.domain st.reqHost url)], ?_⟩
    simp only [browserRun_loc, retryTries, browserRun_locAttempts, hb]

/-- Claim C10: whenever `location` or `submit` hits a transport-level failure
(HTTP error, URL error, bad status line), the engine sets the current page to
`None` before propagating the converted error (`BrowserHTTPNotFound` for a
404, `BrowserHTTPError` otherwise, the latter after the three bounded retry
attempts): the previously current page is not retained. -/
theorem c10_transport_error_clears_page :
    (∀ (cfg : Cfg) (f : Nat) (st : BState) (url : List Char) (nl : Bool)
      (e : TransportError),
      cfg.fetch (checkLocation cfg.protocol cfg.domain st.reqHost url) = .err e →
      ∃ tr, browserRun cfg (f+8) st (.loc url nl) =
        ({ st with page := none }, tr, .error (getExc e))) ∧
    (∀ (cfg : Cfg) (fuel : Nat) (st : BState) (e : TransportError) (nl : Bool),
      submit cfg fuel st (.err e) nl =
        ({ st with page := none }, [], .error (getExc e))) :=
  ⟨location_fetch_err, fun _ _ _ _ _ => rfl⟩

/-- Witness for C10: a browser whose transport always fails with a `URLError`
ends the navigation with no current page and a propagating
`BrowserHTTPError`. -/
theorem c10_witness :
    ∃ tr, browserRun cfgFetchFail 8 stInit (.loc "http://x/a".toList false) =
      ({ stInit with page := none }, tr, .error (getExc .urlError)) :=
  c10_transport_error_clears_page.1 cfgFetchFail 0 stInit "http://x/a".toList
    false .urlError rfl

/-! ## Re-login lemmas (towards C4) -/

theorem noLogin_no_login_event : ∀ (fuel : Nat) (cfg : Cfg) (st : BState),
    (∀ url, .loginCalled ∉ (browserRun cfg fuel st (.loc url true)).2.1) ∧
    (∀ n url, .loginCalled ∉ (browserRun cfg fuel st (.locAttempts n url true)).2.1) ∧
    (∀ url, .loginCalled ∉ (browserRun cfg fuel st (.locBody url true)).2.1) ∧
    (∀ resp, .loginCalled ∉ (browserRun cfg fuel st (.chg resp true)).2.1) := by
  intro fuel
  induction fuel with
  | zero =>
    intro cfg st
    refine ⟨?_, ?_, ?_, ?_⟩ <;> intros <;> simp [browserRun_zero]
  | succ f ih =>
    intro cfg st
    have hchg : ∀ (st' : BState) (resp : Response),
        Ev.loginCalled ∉ (browserRun cfg (f+1) st' (.chg resp true)).2.1 := by
      intro st' resp
      rw [browserRun_chg]
      split
      · simp
      · simp
    have hbody : ∀ (st' : BState) (url : List Char),
        Ev.loginCalled ∉ (browserRun cfg (f+1) st' (.locBody url true)).2.1 := by
      intro st' url
      rw [browserRun_locBody]
      split
      · simp
      · next resp heq =>
        split
        · next st₁ tr₁ hr =>
          have h1 : Ev.loginCalled ∉ tr₁ := by
            have h := (ih cfg { st' with reqHost := some (hostOf resp.url) }).2.2.2 resp
            rw [hr] at h
            exact h
          split
          · intro hc
            rcases List.mem_cons.mp hc with hc | hc
            · exact Ev.noConfusion hc
            · rcases List.mem_append.mp hc with hc | hc
              · exact h1 hc
              · exact (ih cfg st₁).1 url hc
          · intro hc
            rcases List.mem_cons.mp hc with hc | hc
            · exact Ev.noConfusion hc
            · exact h1 hc
        · next st₁ tr₁ res _ hr =>
          have h1 : Ev.loginCalled ∉ tr₁ := by
            have h := (ih cfg { st' with reqHost := some (hostOf resp.url) }).2.2.2 resp
            rw [hr] at h
            exact h
          intro hc
          rcases List.mem_cons.mp hc with hc | hc
          · exact Ev.noConfusion hc
          · exact h1 hc
    have hatt : ∀ (st' : BState) (n : Nat) (url : List Char),
        Ev.loginCalled ∉ (browserRun cfg (f+1) st' (.locAttempts n url true)).2.1 := by
      intro st' n url
      rw [browserRun_locAttempts]
      have h1 : Ev.loginCalled ∉ (browserRun cfg f st' (.locBody url true)).2.1 :=
        (ih cfg st').2.2.1 url
      split
      · next m st₁ tr₁ hr =>
        have h1' : Ev.loginCalled ∉ tr₁ := by rw [hr] at h1; exact h1
        intro hc
        rcases List.mem_append.mp hc with hc | hc
        · exact h1' hc
        · exact (ih cfg st₁).2.1 (m+1) url hc
      · exact h1
    exact ⟨fun url => by rw [browserRun_loc]; exact (ih cfg st).2.1 retryTries _,
           fun n url => hatt st n url, fun url => hbody st url,
           fun resp => hchg st resp⟩

/-- Counterexample to Claim C4 as stated: there is no re-entrancy counter in
`BaseBrowser`; when the module's `login()` navigates without `no_login` and
the intermediate response also looks logged out, `_change_location` invokes
`login()` again from inside the login procedure — the trace shows at least
two (in fact nested) `login()` invocations for one navigation. -/
theorem c4_counterexample :
    2 ≤ countEv (browserRun cfgLoopLogin 16 stInit
      (.loc "http://x/t".toList false)).2.1 .loginCalled := by decide

/-- Claim C4 (amended): the only re-entrancy guard is the explicit `no_login`
flag — a navigation performed with `no_login=True` (as the engine's own
single retry is) never invokes `login()`, while an unflagged navigation
inside the login procedure can trigger a nested login (see the
counterexample); no counter exists. -/
theorem c4_noLogin_flag_blocks_login (cfg : Cfg) (fuel : Nat) (st : BState)
    (url : List Char) :
    .loginCalled ∉ (location cfg fuel st url true).2.1 :=
  (noLogin_no_login_event fuel cfg st).1 url

/-! ## Dispatch-miss and on_loaded lemmas (towards C2, C8) -/

theorem c2_no_page_returns_ok (cfg : Cfg) (f : Nat) (st : BState)
    (resp : Response) (nl : Bool) (h : dispatch cfg.pages resp.url = none) :
    changeLocation cfg (f+1) st resp nl =
      ({ st with page := none },
       [.warnedNoPage resp.url, .savedResponse resp.url], .ok ()) := by
  unfold changeLocation
  rw [browserRun_chg, h]

/-- Counterexample to Claim C2 as stated: when no registered pattern matches
the response URL, `_change_location` logs the URL and persists the body, but
then **returns normally with `self.page = None`** — the navigation completes
with `.ok` and no exception reaches the caller, i.e. the engine does
continue silently with a null current page. -/
theorem c2_counterexample :
    (browserRun cfgNoPages 8 stInit (.loc "http://x/a".toList false)).2.2 =
      .ok () ∧
    (browserRun cfgNoPages 8 stInit (.loc "http://x/a".toList false)).1.page =
      none ∧
    countEv (browserRun cfgNoPages 8 stInit (.loc "http://x/a".toList false)).2.1
      (.warnedNoPage "http://x/a".toList) = 1 ∧
    countEv (browserRun cfgNoPages 8 stInit (.loc "http://x/a".toList false)).2.1
      (.savedResponse "http://x/a".toList) = 1 := by decide

/-- Claim C2 (amended): when dispatch finds no matching pattern for the final
response URL, the engine logs the offending URL and persists the response
body for diagnosis, but it does **not** surface a failure: `_change_location`
sets the current page to `None` and returns normally, so the caller continues
with a null current page and must detect it itself. -/
theorem c2_no_match_logs_and_continues (cfg : Cfg) (f : Nat) (st : BState)
    (resp : Response) (nl : Bool) (h : dispatch cfg.pages resp.url = none) :
    changeLocation cfg (f+1) st resp nl =
      ({ st with page := none },
       [.warnedNoPage resp.url, .savedResponse resp.url], .ok ()) :=
  c2_no_page_returns_ok cfg f st resp nl h

/-- Witness for C2 (amended): a browser with an empty `PAGES` table, on any
response, warns, saves and returns `.ok` with no page. -/
theorem c2_witness :
    changeLocation cfgNoPages 1 stInit ⟨"http://x/a".toList, []⟩ false =
      ({ stInit with page := none },
       [.warnedNoPage "http://x/a".toList, .savedResponse "http://x/a".toList],
       .ok ()) :=
  c2_no_match_logs_and_continues cfgNoPages 0 stInit ⟨"http://x/a".toList, []⟩
    false (by decide)

/-- Counterexample to Claim C8 as stated: a navigation can complete
successfully and hand a page back to calling code whose `on_loaded` hook was
**never** invoked.  With an always-logged-out `is_logged`, a non-navigating
`login()` and no redirect, the relogin branch fires before `on_loaded`
(browser.py line 563 raises `BrowserRetry` first), the retry is then
suppressed by the `self.page.url != args[0]` guard (line 492), and
`location` returns `.ok` with the constructed marker page as the current
page — zero `on_loaded` invocations for it. -/
theorem c8_counterexample :
    (browserRun cfgNoOpLogin 12 stInit (.loc "http://x/t".toList false)).2.2 =
      .ok () ∧
    (browserRun cfgNoOpLogin 12 stInit (.loc "http://x/t".toList false)).1.page =
      some ⟨0, 0, "http://x/t".toList, [], []⟩ ∧
    countEv (browserRun cfgNoOpLogin 12 stInit
      (.loc "http://x/t".toList false)).2.1 (.onLoaded 0) = 0 := by decide

/-- Claim C8 (amended): whenever `_change_location` completes normally with a
current page — i.e. dispatch matched and the re-login branch did not fire —
the trace of that call is exactly "construct the page, then invoke its
`on_loaded` hook": the hook runs exactly once, immediately after
construction and before the call returns the page to its caller; and
`BasePage.on_loaded`, the default implementation, is a no-op.  (When the
re-login branch fires, `BrowserRetry` is raised **before** `on_loaded`, so a
marker page handed back by a suppressed retry never gets its hook — see the
counterexample.) -/
theorem c8_on_loaded_once (cfg : Cfg) (f : Nat) (st : BState) (resp : Response)
    (nl : Bool) (st' : BState) (tr : List Ev) (p : Page)
    (hrun : changeLocation cfg (f+1) st resp nl = (st', tr, .ok ()))
    (hp : st'.page = some p) :
    tr = [.constructed p.pid resp.url, .onLoaded p.pid] ∧ p.pid = st.nextPid ∧
    ∀ s, basePage_on_loaded s = s := by
  unfold changeLocation at hrun
  rw [browserRun_chg] at hrun
  split at hrun
  · simp only [Prod.mk.injEq] at hrun
    rw [← hrun.1] at hp
    simp at hp
  · next cls caps heq =>
    simp only [] at hrun
    split at hrun
    · split at hrun
      · simp at hrun
      · simp at hrun
    · simp only [Prod.mk.injEq] at hrun
      rw [← hrun.1] at hp
      simp only [Option.some.injEq] at hp
      subst hp
      exact ⟨hrun.2.1.symm, rfl, fun s => rfl⟩

/-- Witness for C8: a concrete successful navigation of the catch-all browser
constructs page 0 and then runs `on_loaded` exactly once on it. -/
theorem c8_witness :
    [Ev.constructed 0 "http://x/a".toList, Ev.onLoaded 0] =
      [Ev.constructed (Page.mk 0 0 "http://x/a".toList [] []).pid
        "http://x/a".toList,
       Ev.onLoaded (Page.mk 0 0 "http://x/a".toList [] []).pid] ∧
    (Page.mk 0 0 "http://x/a".toList [] []).pid = stInit.nextPid ∧
    ∀ s, basePage_on_loaded s = s :=
  c8_on_loaded_once cfgSimple 0 stInit ⟨"http://x/a".toList, []⟩ false
    ⟨some ⟨0, 0, "http://x/a".toList, [], []⟩, none, 1⟩
    [Ev.constructed 0 "http://x/a".toList, Ev.onLoaded 0]
    ⟨0, 0, "http://x/a".toList, [], []⟩ (by decide) rfl

/-! ## Re-login retry (towards C3) -/

theorem checkLocation_id (protocol domain : List Char)
    (rh : Option (List Char)) {url : List Char} (h : NormalUrl url) :
    checkLocation protocol domain rh url = url := by
  unfold checkLocation
  rw [if_neg fun hcon => h.1 hcon.1]
  exact pySubFragment_no_hash h.2

/-- Counterexample to Claim C3 as stated: with a login procedure that always
succeeds but performs no navigation, and no redirect, the logged-out marker
page's URL equals the requested URL, so the guard
`if not self.page or not args or self.page.url != args[0]` suppresses the
retry: `login()` runs once but the navigation is **not** retried (the target
is fetched exactly once), the logged-out marker page remains the current
page, and its `on_loaded` hook is never invoked — yet `location` returns
normally. -/
theorem c3_counterexample :
    (browserRun cfgNoOpLogin 12 stInit (.loc "http://x/t".toList false)).2.2 =
      .ok () ∧
    countEv (browserRun cfgNoOpLogin 12 stInit
      (.loc "http://x/t".toList false)).2.1 .loginCalled = 1 ∧
    countEv (browserRun cfgNoOpLogin 12 stInit
      (.loc "http://x/t".toList false)).2.1 (.fetched "http://x/t".toList) = 1 ∧
    (browserRun cfgNoOpLogin 12 stInit (.loc "http://x/t".toList false)).1.page =
      some ⟨0, 0, "http://x/t".toList, [], []⟩ ∧
    countEv (browserRun cfgNoOpLogin 12 stInit
      (.loc "http://x/t".toList false)).2.1 (.onLoaded 0) = 0 := by decide

/-- Claim C3 (amended): for a navigation whose first response is dispatched
to a logged-out marker page, with a password configured and a login procedure
that succeeds after navigating to a login page whose URL differs from the
requested URL (the guard `self.page.url != args[0]` must see a different
URL; see the counterexample for the no-navigation case), the engine invokes
`login()` exactly once, retries the original navigation exactly once with
`no_login=True` (so login is not re-run on the retry), and the retried
navigation's page — not the logged-out marker — becomes the current page and
is the one whose `on_loaded` hook runs. -/
theorem c3_relogin_retry (cfg : Cfg) (f : Nat) (st : BState)
    (target loginUrl docT docL : List Char) (mCls lCls : PageCls)
    (capsT capsL : Caps)
    (hTn : NormalUrl target) (hLn : NormalUrl loginUrl)
    (hft : cfg.fetch target = .ok ⟨target, docT⟩)
    (hfl : cfg.fetch loginUrl = .ok ⟨loginUrl, docL⟩)
    (hdt : dispatch cfg.pages target = some (mCls, capsT))
    (hdl : dispatch cfg.pages loginUrl = some (lCls, capsL))
    (hpw : cfg.hasPassword = true)
    (hlogT : ∀ pid, cfg.isLogged (some ⟨pid, mCls, target, docT, capsT⟩) = false)
    (hlogL : ∀ pid, cfg.isLogged (some ⟨pid, lCls, loginUrl, docL, capsL⟩) = true)
    (hprog : cfg.loginProg = [(loginUrl, false)])
    (hne : loginUrl ≠ target) :
    browserRun cfg (f+20) st (.loc target false) =
      (⟨some ⟨st.nextPid+2, mCls, target, docT, capsT⟩, some (hostOf target),
        st.nextPid+3⟩,
       [.fetched target, .constructed st.nextPid target, .loginCalled,
        .fetched loginUrl, .constructed (st.nextPid+1) loginUrl,
        .onLoaded (st.nextPid+1), .fetched target,
        .constructed (st.nextPid+2) target, .onLoaded (st.nextPid+2)],
       .ok ()) ∧
    countEv (browserRun cfg (f+20) st (.loc target false)).2.1 .loginCalled = 1 ∧
    countEv (browserRun cfg (f+20) st (.loc target false)).2.1
      (.fetched target) = 2 ∧
    countEv (browserRun cfg (f+20) st (.loc target false)).2.1
      (.onLoaded (st.nextPid+2)) = 1 := by
  have hcT : ∀ rh, checkLocation cfg.protocol cfg.domain rh target = target :=
    fun rh => checkLocation_id _ _ _ hTn
  have hcL : ∀ rh, checkLocation cfg.protocol cfg.domain rh loginUrl = loginUrl :=
    fun rh => checkLocation_id _ _ _ hLn
  have hneb : decide (loginUrl ≠ target) = true := decide_eq_true hne
  -- the states traversed by the scenario
  have hchgL : ∀ g, browserRun cfg (g+1)
      ⟨some ⟨st.nextPid, mCls, target, docT, capsT⟩, some (hostOf loginUrl),
        st.nextPid+1⟩
      (.chg ⟨loginUrl, docL⟩ false) =
      (⟨some ⟨st.nextPid+1, lCls, loginUrl, docL, capsL⟩,
        some (hostOf loginUrl), st.nextPid+2⟩,
       [.constructed (st.nextPid+1) loginUrl, .onLoaded (st.nextPid+1)],
       .ok ()) := by
    intro g
    simp only [browserRun_chg, hdl, hpw, hlogL, Bool.not_false, Bool.not_true,
      Bool.true_and, Bool.and_false, Bool.false_eq_true, if_false]
  have hbodyL : ∀ g, browserRun cfg (g+2)
      ⟨some ⟨st.nextPid, mCls, target, docT, capsT⟩, some (hostOf target),
        st.nextPid+1⟩
      (.locBody loginUrl false) =
      (⟨some ⟨st.nextPid+1, lCls, loginUrl, docL, capsL⟩,
        some (hostOf loginUrl), st.nextPid+2⟩,
       [.fetched loginUrl, .constructed (st.nextPid+1) loginUrl,
        .onLoaded (st.nextPid+1)],
       .ok ()) := by
    intro g
    rw [show g+2 = (g+1)+1 from rfl, browserRun_locBody, hfl]
    simp only [hchgL g]
  have hattL : ∀ g, browserRun cfg (g+3)
      ⟨some ⟨st.nextPid, mCls, target, docT, capsT⟩, some (hostOf target),
        st.nextPid+1⟩
      (.locAttempts 3 loginUrl false) =
      (⟨some ⟨st.nextPid+1, lCls, loginUrl, docL, capsL⟩,
        some (hostOf loginUrl), st.nextPid+2⟩,
       [.fetched loginUrl, .constructed (st.nextPid+1) loginUrl,
        .onLoaded (st.nextPid+1)],
       .ok ()) := by
    intro g
    rw [show g+3 = (g+2)+1 from rfl, browserRun_locAttempts, hbodyL g]
  have hlocL : ∀ g, browserRun cfg (g+4)
      ⟨some ⟨st.nextPid, mCls, target, docT, capsT⟩, some (hostOf target),
        st.nextPid+1⟩
      (.loc loginUrl false) =
      (⟨some ⟨st.nextPid+1, lCls, loginUrl, docL, capsL⟩,
        some (hostOf loginUrl), st.nextPid+2⟩,
       [.fetched loginUrl, .constructed (st.nextPid+1) loginUrl,
        .onLoaded (st.nextPid+1)],
       .ok ()) := by
    intro g
    rw [show g+4 = (g+3)+1 from rfl, browserRun_loc, hcL]
    exact hattL g
  have hprogL : ∀ g, browserRun cfg (g+5)
      ⟨some ⟨st.nextPid, mCls, target, docT, capsT⟩, some (hostOf target),
        st.nextPid+1⟩
      (.prog [(loginUrl, false)]) =
      (⟨some ⟨st.nextPid+1, lCls, loginUrl, docL, capsL⟩,
        some (hostOf loginUrl), st.nextPid+2⟩,
       [.fetched loginUrl, .constructed (st.nextPid+1) loginUrl,
        .onLoaded (st.nextPid+1)],
       .ok ()) := by
    intro g
    rw [show g+5 = (g+4)+1 from rfl, browserRun_prog_cons, hlocL g]
    simp only [show g+4 = (g+3)+1 from rfl, browserRun_prog_nil,
      List.append_nil]
  have hchgT : ∀ g, browserRun cfg (g+6)
      ⟨st.page, some (hostOf target), st.nextPid⟩
      (.chg ⟨target, docT⟩ false) =
      (⟨some ⟨st.nextPid+1, lCls, loginUrl, docL, capsL⟩,
        some (hostOf loginUrl), st.nextPid+2⟩,
       [.constructed st.nextPid target, .loginCalled, .fetched loginUrl,
        .constructed (st.nextPid+1) loginUrl, .onLoaded (st.nextPid+1)],
       .error .browserRetry) := by
    intro g
    rw [show g+6 = (g+5)+1 from rfl, browserRun_chg, hdt]
    simp only [hpw, hlogT, hprog, Bool.not_false, Bool.true_and,
      Bool.and_self, if_true, hprogL g]
  have hchgT2 : ∀ g, browserRun cfg (g+1)
      ⟨some ⟨st.nextPid+1, lCls, loginUrl, docL, capsL⟩, some (hostOf target),
        st.nextPid+2⟩
      (.chg ⟨target, docT⟩ true) =
      (⟨some ⟨st.nextPid+2, mCls, target, docT, capsT⟩, some (hostOf target),
        st.nextPid+3⟩,
       [.constructed (st.nextPid+2) target, .onLoaded (st.nextPid+2)],
       .ok ()) := by
    intro g
    simp only [browserRun_chg, hdt, Bool.not_true, Bool.false_and,
      Bool.false_eq_true, if_false]
  have hbodyT2 : ∀ g, browserRun cfg (g+2)
      ⟨some ⟨st.nextPid+1, lCls, loginUrl, docL, capsL⟩,
        some (hostOf loginUrl), st.nextPid+2⟩
      (.locBody target true) =
      (⟨some ⟨st.nextPid+2, mCls, target, docT, capsT⟩, some (hostOf target),
        st.nextPid+3⟩,
       [.fetched target, .constructed (st.nextPid+2) target,
        .onLoaded (st.nextPid+2)],
       .ok ()) := by
    intro g
    rw [show g+2 = (g+1)+1 from rfl, browserRun_locBody, hft]
    simp only [hchgT2 g]
  have hattT2 : ∀ g, browserRun cfg (g+3)
      ⟨some ⟨st.nextPid+1, lCls, loginUrl, docL, capsL⟩,
        some (hostOf loginUrl), st.nextPid+2⟩
      (.locAttempts 3 target true) =
      (⟨some ⟨st.nextPid+2, mCls, target, docT, capsT⟩, some (hostOf target),
        st.nextPid+3⟩,
       [.fetched target, .constructed (st.nextPid+2) target,
        .onLoaded (st.nextPid+2)],
       .ok ()) := by
    intro g
    rw [show g+3 = (g+2)+1 from rfl, browserRun_locAttempts, hbodyT2 g]
  have hlocT2 : ∀ g, browserRun cfg (g+4)
      ⟨some ⟨st.nextPid+1, lCls, loginUrl, docL, capsL⟩,
        some (hostOf loginUrl), st.nextPid+2⟩
      (.loc target true) =
      (⟨some ⟨st.nextPid+2, mCls, target, docT, capsT⟩, some (hostOf target),
        st.nextPid+3⟩,
       [.fetched target, .constructed (st.nextPid+2) target,
        .onLoaded (st.nextPid+2)],
       .ok ()) := by
    intro g
    rw [show g+4 = (g+3)+1 from rfl, browserRun_loc, hcT]
    exact hattT2 g
  have hbodyT : ∀ g, browserRun cfg (g+7) st (.locBody target false) =
      (⟨some ⟨st.nextPid+2, mCls, target, docT, capsT⟩, some (hostOf target),
        st.nextPid+3⟩,
       [.fetched target, .constructed st.nextPid target, .loginCalled,
        .fetched loginUrl, .constructed (st.nextPid+1) loginUrl,
        .onLoaded (st.nextPid+1), .fetched target,
        .constructed (st.nextPid+2) target, .onLoaded (st.nextPid+2)],
       .ok ()) := by
    intro g
    have hlt := hlocT2 (g+2)
    rw [show g+2+4 = g+6 from by omega] at hlt
    rw [show g+7 = (g+6)+1 from rfl, browserRun_locBody, hft]
    simp only [hchgT g, hlt, hneb, if_true, List.cons_append,
      List.nil_append]
  have hattT : ∀ g, browserRun cfg (g+8) st (.locAttempts 3 target false) =
      (⟨some ⟨st.nextPid+2, mCls, target, docT, capsT⟩, some (hostOf target),
        st.nextPid+3⟩,
       [.fetched target, .constructed st.nextPid target, .loginCalled,
        .fetched loginUrl, .constructed (st.nextPid+1) loginUrl,
        .onLoaded (st.nextPid+1), .fetched target,
        .constructed (st.nextPid+2) target, .onLoaded (st.nextPid+2)],
       .ok ()) := by
    intro g
    rw [show g+8 = (g+7)+1 from rfl, browserRun_locAttempts, hbodyT g]
  have hMain : browserRun cfg (f+20) st (.loc target false) =
      (⟨some ⟨st.nextPid+2, mCls, target, docT, capsT⟩, some (hostOf target),
        st.nextPid+3⟩,
       [.fetched target, .constructed st.nextPid target, .loginCalled,
        .fetched loginUrl, .constructed (st.nextPid+1) loginUrl,
        .onLoaded (st.nextPid+1), .fetched target,
        .constructed (st.nextPid+2) target, .onLoaded (st.nextPid+2)],
       .ok ()) := by
    rw [show f+20 = (f+19)+1 from rfl, browserRun_loc, hcT,
      show f+19 = (f+11)+8 from by omega]
    exact hattT (f+11)
  refine ⟨hMain, ?_, ?_, ?_⟩ <;> rw [hMain] <;>
    simp [countEv, hne, Ne.symm hne]

/-- Witness for C3 (amended): the two-binding browser `cfgRelogin` run on the
target URL performs exactly one login, fetches the target exactly twice, and
ends with `on_loaded` run once on the retried page. -/
theorem c3_witness :
    countEv (browserRun cfgRelogin 20 stInit
      (.loc "http://x/t".toList false)).2.1 .loginCalled = 1 ∧
    countEv (browserRun cfgRelogin 20 stInit
      (.loc "http://x/t".toList false)).2.1 (.fetched "http://x/t".toList) = 2 ∧
    countEv (browserRun cfgRelogin 20 stInit
      (.loc "http://x/t".toList false)).2.1
      (.onLoaded (stInit.nextPid+2)) = 1 :=
  (c3_relogin_retry cfgRelogin 0 stInit "http://x/t".toList
    "http://x/login".toList [] [] 0 1 [] [] ⟨by decide, by decide⟩
    ⟨by decide, by decide⟩ rfl rfl (by decide) (by decide) rfl
    (fun _ => rfl) (fun _ => rfl) rfl (by decide)).2
